import Mathlib

/-!
Verification of the aiframework natural-language → workflow compiler.

The development shallowly embeds the two compiler front ends of the
repository:

* namespace `P` embeds `src/parser.js` (the synchronous tokenizer,
  recursive-descent expression parser and condition parser);
* namespace `F` embeds `src/framework.js` (the command-dispatch registry,
  the `AdvancedParserContext`, the `Transformer` NLP stub, workflow
  assembly and the Mermaid renderer).

JavaScript strings are modelled as `List Char`.  JavaScript regular
expressions are modelled by hand-written deterministic matchers that
follow the backtracking behaviour of the concrete regexes appearing in
the source (leftmost match, ordered alternation, greedy quantifiers with
the only backtracking points those regexes can actually exercise).
Mutable parser state is threaded explicitly; recursion that the source
drives by string length uses an explicit fuel argument, always called
with enough fuel for the input at hand.

On the `async` functions of framework.js: every awaited promise comes
from the pure, immediately computed `Transformer` stub, so *within one
`parseSentence` chain* the awaits preserve program order exactly and the
sequential embedding is faithful.  Across the lines of one
`generateWorkflow` call the source starts every line's parse in the same
synchronous tick (`map` followed by `Promise.all`) over the shared
context, and the suspended continuations then interleave through the
microtask queue; `compileSteps` documents the input fragment on which
the sequential per-line composition coincides with that execution, and
the theorems use it only on such inputs.
-/

set_option maxRecDepth 8000

namespace AF

/-- Shorthand: the character list of a string literal. -/
def cs (s : String) : List Char := s.data

/-- JS whitespace (the subset relevant to this code base: the inputs only
contain spaces, tabs, CR and LF). -/
def jsIsWs (c : Char) : Bool := c = ' ' || c = '\t' || c = '\n' || c = '\r'

/-- JS `\w` character class: `[A-Za-z0-9_]`. -/
def isWordChar (c : Char) : Bool := c.isAlpha || c.isDigit || c = '_'

/-- JS `\d` character class. -/
def isDigitChar (c : Char) : Bool := c.isDigit

/-- Strip leading JS whitespace. -/
def trimLeft : List Char → List Char
  | [] => []
  | c :: rest => if jsIsWs c then trimLeft rest else c :: rest

/-- JS `String.prototype.trim` (both ends). -/
def jsTrim (s : List Char) : List Char :=
  trimLeft ((trimLeft s.reverse).reverse)

/-- `pat` occurs at the start of `t` (plain, case-sensitive). -/
def startsWithL : List Char → List Char → Bool
  | [], _ => true
  | _ :: _, [] => false
  | p :: ps, c :: rest => p = c && startsWithL ps rest

/-- JS `String.prototype.includes`: `pat` occurs somewhere in `hay`. -/
def includesSub (hay pat : List Char) : Bool :=
  startsWithL pat hay ||
    match hay with
    | [] => false
    | _ :: rest => includesSub rest pat

/-- Case-insensitive prefix test (for the `/i` regex flag on literal
keywords); returns the remainder of the string after the keyword. -/
def ciStarts : List Char → List Char → Option (List Char)
  | [], t => some t
  | _ :: _, [] => none
  | p :: ps, c :: rest => if c.toLower = p.toLower then ciStarts ps rest else none

/-- Numeric value of a digit string (used for JS `parseInt` on strings
captured by `(\d+)`, which are always plain decimal digit runs). -/
def digitsVal (s : List Char) : Nat :=
  s.foldl (fun acc c => acc * 10 + (c.toNat - '0'.toNat)) 0

/-- JS `String.prototype.split('\n')`. -/
def splitOnNl : List Char → List (List Char)
  | [] => [[]]
  | c :: rest =>
    if c = '\n' then [] :: splitOnNl rest
    else
      match splitOnNl rest with
      | [] => [[c]]
      | piece :: more => (c :: piece) :: more

/-- JS `String.prototype.split(' ')` (single-space separator). -/
def splitOnSpace : List Char → List (List Char)
  | [] => [[]]
  | c :: rest =>
    if c = ' ' then [] :: splitOnSpace rest
    else
      match splitOnSpace rest with
      | [] => [[c]]
      | piece :: more => (c :: piece) :: more

end AF

namespace AF.P

/-!  Embedding of `src/parser.js`.  -/

/-- `sanitizeInput` (parser.js:105-107): `input.replace(/[<>{}]/g, '').trim()`. -/
def sanitizeInput (s : List Char) : List Char :=
  jsTrim (s.filter (fun c => !(c = '<' || c = '>' || c = '\x7b' || c = '\x7d')))

/-- The operator characters of the tokenizer class `[+\-*/()]`. -/
def opChars : List Char := ['+', '-', '*', '/', '(', ')']

/-- `^\d+(\.\d+)?$` (parser.js:172). -/
def tokIsNum (t : List Char) : Bool :=
  let digits := t.takeWhile isDigitChar
  let rest := t.dropWhile isDigitChar
  digits ≠ [] &&
    (rest = [] ||
      (match rest with
       | '.' :: frac => frac ≠ [] && frac.all isDigitChar
       | _ => false))

/-- `^\w+$` (parser.js:171). -/
def tokIsWord (t : List Char) : Bool := t ≠ [] && t.all isWordChar

/-- One match attempt of the tokenizer regex `/\w+|\d+\.\d+|\d+|[+\-*/()]/g`
at the current position (alternatives in order; note the digit
alternatives are unreachable because digits are word characters and the
`\w+` alternative is tried first). -/
def tokenAt (s : List Char) : Option (List Char × List Char) :=
  match s with
  | [] => none
  | c :: rest =>
    if isWordChar c then
      some ((c :: rest).takeWhile isWordChar, (c :: rest).dropWhile isWordChar)
    else if isDigitChar c then
      -- `\d+\.\d+` / `\d+`: dead alternatives, kept for fidelity
      some ((c :: rest).takeWhile isDigitChar, (c :: rest).dropWhile isDigitChar)
    else if opChars.contains c then some ([c], rest)
    else none

/-- The global scan of `sanitized.match(/\w+|\d+\.\d+|\d+|[+\-*/()]/g) || []`:
characters that start no alternative are skipped. -/
def tokenize : Nat → List Char → List (List Char)
  | 0, _ => []
  | _ + 1, [] => []
  | fuel + 1, c :: rest =>
    match tokenAt (c :: rest) with
    | some (tok, remaining) => tok :: tokenize fuel remaining
    | none => tokenize fuel rest

/-- The tokens `parseExpression` works on for input `s`. -/
def tokensOf (s : String) : List (List Char) :=
  let sanitized := sanitizeInput s.data
  tokenize (sanitized.length + 1) sanitized

/-- Mutable parser state of `parseExpression`: the token cursor `index`
and the running `parenCount` (which the code can drive negative, hence `Int`). -/
structure PSt where
  idx : Nat
  paren : Int
deriving Repr, DecidableEq

/-- Expression values built by `parseExpression`.  `nullE` mirrors the JS
`null` that `parseMulDiv` can embed as a left child (`left = {[op]: [left,
right]}` runs even when `left` is still `null`). -/
inductive Expr where
  | nullE : Expr
  | get : List Char → Expr
  | num : Int → Expr
  | binop : List Char → Expr → Expr → Expr
deriving Repr, DecidableEq

/-- JS `null`-tolerant unwrap used when the code stores a possibly-null
value as a child node. -/
def optE : Option Expr → Expr
  | none => Expr.nullE
  | some e => e

/-- Integer reading of a numeric token (the `parseFloat` in
`parsePrimary`'s dead numeric branch; unreachable, see `tokenAt`). -/
def numOfTok (t : List Char) : Int :=
  Int.ofNat (digitsVal (t.takeWhile isDigitChar))

mutual

/-- `parsePrimary` (parser.js:165-183), state-passing form. -/
def parsePrimary : Nat → List (List Char) → PSt → Option Expr × PSt
  | 0, _, st => (none, st)
  | fuel + 1, toks, st =>
    if h : st.idx < toks.length then
      let token := toks.get ⟨st.idx, h⟩
      let st1 : PSt :=
        { idx := st.idx + 1,
          paren := st.paren + (if token = ['('] then 1 else 0)
                    - (if token = [')'] then 1 else 0) }
      if st1.paren < 0 then (none, st1)
      else if tokIsWord token then (some (Expr.get token), st1)
      else if tokIsNum token then (some (Expr.num (numOfTok token)), st1)
      else if token = ['('] then
        let res := parseExpressionTokens fuel toks st1
        let st2 := res.2
        if h2 : st2.idx < toks.length then
          if toks.get ⟨st2.idx, h2⟩ = [')'] then
            (res.1, { idx := st2.idx + 1, paren := st2.paren - 1 })
          else (none, st2)
        else (none, st2)
      else (none, st1)
    else (none, st)

/-- The `while` loop of `parseMulDiv` (parser.js:187-192). -/
def mulLoop : Nat → List (List Char) → Option Expr → PSt → Option Expr × PSt
  | 0, _, left, st => (left, st)
  | fuel + 1, toks, left, st =>
    if h : st.idx < toks.length then
      let t := toks.get ⟨st.idx, h⟩
      if t = ['*'] || t = ['/'] then
        let op : List Char := if t = ['*'] then cs "multiply" else cs "divide"
        let res := parsePrimary fuel toks { st with idx := st.idx + 1 }
        match res.1 with
        | none => (none, res.2)
        | some r => mulLoop fuel toks (some (Expr.binop op (optE left) r)) res.2
      else (left, st)
    else (left, st)

/-- `parseMulDiv` (parser.js:185-194). -/
def parseMulDiv : Nat → List (List Char) → PSt → Option Expr × PSt
  | 0, _, st => (none, st)
  | fuel + 1, toks, st =>
    let res := parsePrimary fuel toks st
    mulLoop fuel toks res.1 res.2

/-- The `while` loop of `parseAddSub` (parser.js:199-204). -/
def addLoop : Nat → List (List Char) → Option Expr → PSt → Option Expr × PSt
  | 0, _, left, st => (left, st)
  | fuel + 1, toks, left, st =>
    if h : st.idx < toks.length then
      let t := toks.get ⟨st.idx, h⟩
      if t = ['+'] || t = ['-'] then
        let op : List Char := if t = ['+'] then cs "add" else cs "subtract"
        let res := parseMulDiv fuel toks { st with idx := st.idx + 1 }
        match res.1 with
        | none => (none, res.2)
        | some r => addLoop fuel toks (some (Expr.binop op (optE left) r)) res.2
      else (left, st)
    else (left, st)

/-- `parseAddSub` (parser.js:196-206); unlike `parseMulDiv` it aborts when
the first operand fails. -/
def parseAddSub : Nat → List (List Char) → PSt → Option Expr × PSt
  | 0, _, st => (none, st)
  | fuel + 1, toks, st =>
    let res := parseMulDiv fuel toks st
    match res.1 with
    | none => (none, res.2)
    | some l => addLoop fuel toks (some l) res.2

/-- `parseExpressionTokens` (parser.js:208-210). -/
def parseExpressionTokens : Nat → List (List Char) → PSt → Option Expr × PSt
  | 0, _, st => (none, st)
  | fuel + 1, toks, st => parseAddSub fuel toks st

end

/-- Fuel that the nested descent of `parseExpression` can never exhaust:
each level of the `parseExpressionTokens → parseAddSub → parseMulDiv →
parsePrimary` chain and each loop step consumes at least one token
before recursing. -/
def exprFuel (toks : List (List Char)) : Nat := 8 * toks.length + 8

/-- The raw run of `parseExpression`'s recursive descent: the result of
`parseExpressionTokens()` together with the final cursor/parenthesis state
(parser.js:159-212, everything before the final guard). -/
def parseExpressionRun (s : String) : Option Expr × PSt :=
  let toks := tokensOf s
  parseExpressionTokens (exprFuel toks) toks ⟨0, 0⟩

/-- `parseExpression` (parser.js:159-214): the run above followed by the
final all-or-nothing guard
`index === tokens.length && parenCount === 0 ? result : null`. -/
def parseExpression (s : String) : Option Expr :=
  let res := parseExpressionRun s
  if res.2.idx = (tokensOf s).length ∧ res.2.paren = 0 then res.1 else none

/-- Standard arithmetic evaluation of an expression tree under an
environment for variable references.  (The tokenizer classifies numerals
as `\w+` tokens, so numeric leaves surface as `get` nodes carrying the
numeral's text; the standard environment below gives them their numeric
denotation.) -/
def evalExpr (env : List Char → Int) : Expr → Int
  | Expr.nullE => 0
  | Expr.get n => env n
  | Expr.num n => n
  | Expr.binop op l r =>
    if op = cs "add" then evalExpr env l + evalExpr env r
    else if op = cs "subtract" then evalExpr env l - evalExpr env r
    else if op = cs "multiply" then evalExpr env l * evalExpr env r
    else if op = cs "divide" then evalExpr env l / evalExpr env r
    else 0

/-- The standard environment: a leaf whose name is a numeral denotes that
number, anything else is an unbound variable (value 0). -/
def numeralEnv (n : List Char) : Int :=
  if n ≠ [] ∧ n.all isDigitChar then Int.ofNat (digitsVal n) else 0

/-! ### Condition parser (parser.js:114-152) -/

/-- Scalar payload of a `{ value: … }` operand. -/
inductive PVal where
  | vbool : Bool → PVal
  | vnum : Int → PVal
deriving Repr, DecidableEq

/-- Operands of a comparison: `{ get: name }` or `{ value: v }`. -/
inductive POperand where
  | get : List Char → POperand
  | val : PVal → POperand
deriving Repr, DecidableEq

/-- Condition trees built by `parseCondition`. -/
inductive PCond where
  | compare : POperand → List Char → POperand → PCond
  | regexC : List Char → List Char → PCond
  | andC : PCond → PCond → PCond
  | orC : PCond → PCond → PCond
deriving Repr, DecidableEq

/-- The constant-false comparison
`{ compare: { left: { value: false }, op: '===', right: { value: false } } }`. -/
def constFalse : PCond :=
  PCond.compare (POperand.val (PVal.vbool false)) (cs "===")
    (POperand.val (PVal.vbool false))

/-- One match attempt of `/\s+contains\s+/i` at the current position:
at least one whitespace (greedy), the keyword case-insensitively, at
least one whitespace (greedy).  Returns the remainder after the match. -/
def containsSepAt (s : List Char) : Option (List Char) :=
  let ws1 := s.takeWhile jsIsWs
  if ws1 = [] then none
  else
    match ciStarts (cs "contains") (s.dropWhile jsIsWs) with
    | none => none
    | some afterKw =>
      let ws2 := afterKw.takeWhile jsIsWs
      if ws2 = [] then none else some (afterKw.dropWhile jsIsWs)

/-- Leftmost match of `/\s+contains\s+/i`: splits off the piece before the
separator and the remainder after it. -/
def findContainsSep : Nat → List Char → Option (List Char × List Char)
  | 0, _ => none
  | _ + 1, [] => none
  | fuel + 1, c :: rest =>
    match containsSepAt (c :: rest) with
    | some remainder => some ([], remainder)
    | none =>
      match findContainsSep fuel rest with
      | some (pre, remainder) => some (c :: pre, remainder)
      | none => none

/-- JS `sanitized.split(/\s+contains\s+/i)`. -/
def splitContains : Nat → List Char → List (List Char)
  | 0, s => [s]
  | fuel + 1, s =>
    match findContainsSep (s.length + 1) s with
    | none => [s]
    | some (pre, remainder) => pre :: splitContains fuel remainder

/-- `right.replace(/['"]/g, '')` (parser.js:123). -/
def stripQuotes (s : List Char) : List Char :=
  s.filter (fun c => !(c = '\'' || c = '"'))

/-- `….replace(/[.*+?^${}()|[\]\\]/g, '\\$&')` (parser.js:123): prefix
every regex metacharacter with a backslash. -/
def escapeRegex (s : List Char) : List Char :=
  s.flatMap (fun c =>
    if c ∈ ['.', '*', '+', '?', '^', '$', '\x7b', '\x7d', '(', ')', '|',
            '[', ']', '\\']
    then ['\\', c] else [c])

/-- Match attempt of the tail `(\|\||&&)\s*(.+)$` of the logical-split
regex at a given split point: optional whitespace (greedy), one of the
two-character connectives, optional whitespace, then at least one
character for the right side.  When everything after the connective is
whitespace, `\s*` backtracks one character so that `(.+)` can take the
last whitespace character — mirroring the JS regex. -/
def logicalTailAt (s : List Char) : Option (List Char × List Char) :=
  let afterWs := s.dropWhile jsIsWs
  let op? : Option (List Char) :=
    if startsWithL (cs "||") afterWs then some (cs "||")
    else if startsWithL (cs "&&") afterWs then some (cs "&&")
    else none
  match op? with
  | none => none
  | some op =>
    let afterOp := afterWs.drop 2
    let tail := afterOp.dropWhile jsIsWs
    if tail ≠ [] then some (op, tail)
    else
      match afterOp.reverse with
      | [] => none
      | lastWs :: _ => if afterOp = [] then none else some (op, [lastWs])

/-- `sanitized.match(/^(.+?)\s*(\|\||&&)\s*(.+)$/)` (parser.js:128):
the lazy `(.+?)` finds the shortest non-empty left side whose remainder
matches the tail.  Returns `(left, op, right)`. -/
def matchLogical (s : List Char) : Option (List Char × List Char × List Char) :=
  go (s.length + 1) [] s
where
  go : Nat → List Char → List Char → Option (List Char × List Char × List Char)
    | 0, _, _ => none
    | _ + 1, _, [] => none
    | fuel + 1, leftRev, c :: rest =>
      match logicalTailAt rest with
      | some (op, right) => some ((c :: leftRev).reverse, op, right)
      | none => go fuel (c :: leftRev) rest

/-- The operator alternation `(>|>=|<|<=|===|!==|==)` of the comparison
regex, in the source's order. -/
def compareOps : List (List Char) :=
  [cs ">", cs ">=", cs "<", cs "<=", cs "===", cs "!==", cs "=="]

/-- Try the operator alternatives in order at position `t`; on a hit the
rest `\s*(\S+)` must also match, otherwise the next alternative is
tried (ordered alternation with backtracking into the alternation). -/
def tryOps : List (List Char) → List Char → Option (List Char × List Char)
  | [], _ => none
  | op :: more, t =>
    if startsWithL op t then
      let after := t.drop op.length
      let rhs := (after.dropWhile jsIsWs).takeWhile (fun c => !jsIsWs c)
      if rhs ≠ [] then some (op, rhs) else tryOps more t
    else tryOps more t

/-- Match attempt of `(\w+)\s*(>|>=|<|<=|===|!==|==)\s*(\S+)` starting at
the current position: a greedy word run, greedy whitespace, then the
operator alternation and its tail. -/
def tryCompareAt (s : List Char) : Option (List Char × List Char × List Char) :=
  let w := s.takeWhile isWordChar
  if w = [] then none
  else
    let t := (s.dropWhile isWordChar).dropWhile jsIsWs
    match tryOps compareOps t with
    | some (op, rhs) => some (w, op, rhs)
    | none => none

/-- `sanitized.match(/(\w+)\s*(>|>=|<|<=|===|!==|==)\s*(\S+)/)`
(parser.js:138): unanchored search, leftmost match wins. -/
def matchCompare : List Char → Option (List Char × List Char × List Char)
  | [] => none
  | c :: rest =>
    match tryCompareAt (c :: rest) with
    | some r => some r
    | none => matchCompare rest

/-- JS `isNaN(right) ? { get: right } : { value: parseFloat(right) }`.
The numeric-string test is modelled for plain digit runs, the only
numeric literals the claims exercise. -/
def rightOperand (r : List Char) : POperand :=
  if r ≠ [] && r.all isDigitChar then POperand.val (PVal.vnum (Int.ofNat (digitsVal r)))
  else POperand.get r

/-- `parseCondition` (parser.js:114-152), fuelled: branch order is the
source's — empty input, `contains`, logical split (recursing on the
trimmed sides), comparison, then the boolean-variable fallback. -/
def parseConditionGo : Nat → List Char → PCond
  | 0, _ => constFalse
  | fuel + 1, condStr =>
    let sanitized := sanitizeInput condStr
    if sanitized = [] then constFalse
    else if includesSub sanitized (cs "contains") then
      let pieces := (splitContains (sanitized.length + 1) sanitized).map jsTrim
      let left := pieces.getD 0 []
      let right := pieces.getD 1 []
      if left = [] ∨ right = [] then constFalse
      else
        PCond.regexC (cs ".*" ++ escapeRegex (stripQuotes right) ++ cs ".*") left
    else
      match matchLogical sanitized with
      | some (l, op, r) =>
        let cl := parseConditionGo fuel (jsTrim l)
        let cr := parseConditionGo fuel (jsTrim r)
        if op = cs "&&" then PCond.andC cl cr else PCond.orC cl cr
      | none =>
        match matchCompare sanitized with
        | some (l, op, r) =>
          PCond.compare (POperand.get l) op (rightOperand r)
        | none =>
          PCond.compare (POperand.get sanitized) (cs "===")
            (POperand.val (PVal.vbool true))

/-- `parseCondition(conditionStr)`: the fuel is one more than the input
length, which the strictly-shrinking logical recursion can never use up. -/
def parseCondition (s : String) : PCond :=
  parseConditionGo (s.length + 1) s.data

/-- The comparison operator at the root of a condition, if the root is a
comparison node. -/
def condRootOp : PCond → Option (List Char)
  | PCond.compare _ op _ => some op
  | _ => none

/-- No comparison node anywhere in the condition tree carries one of the
angle-bracket operators `>`, `<`, `>=`, `<=`. -/
def condOpsOk : PCond → Bool
  | PCond.compare _ op _ =>
    !(op = cs ">" || op = cs ">=" || op = cs "<" || op = cs "<=")
  | PCond.regexC _ _ => true
  | PCond.andC l r => condOpsOk l && condOpsOk r
  | PCond.orC l r => condOpsOk l && condOpsOk r

end AF.P

namespace AF.F

/-!  Embedding of `src/framework.js` (the advanced pipeline).

The `async` functions of the source await only the pure, immediately
computed results of the `Transformer` stub, so they are modelled as
ordinary sequential functions (awaits resolved in place).  The external
collaborators (`Ajv`, logging, IPFS, tensorflow) are at the spec's
collaborator boundary; of the validation gate only the structural step
checks that decide the claims are modelled, the fixed metadata fields of
the generated document (which always satisfy their schema) are not
carried. -/

/-- Result shapes of `Transformer.parse` (framework.js:225-254).  The
`logical` shape is never produced by the stub; it exists only because
`parseCondition` has a (dead) branch testing for it. -/
inductive NLParse where
  | compareN : List Char → List Char → List Char → NLParse
  | mathN : List Char → List Char → List Char → NLParse
  | mlN : List Char → List Char → NLParse
  | valueN : List Char → NLParse
  | logicalN : List Char → List Char → List Char → NLParse
deriving Repr, DecidableEq

/-- The comparison-operator list of the transformer stub
(framework.js:227). -/
def nlCompareOps : List (List Char) :=
  [cs ">", cs "<", cs ">=", cs "<=", cs "===", cs "!==", cs "=="]

/-- The math-operator word list of the transformer stub
(framework.js:235). -/
def nlMathOps : List (List Char) :=
  [cs "add", cs "subtract", cs "multiply", cs "divide"]

/-- `parts.slice(2).join(' ')`. -/
def joinSpace : List (List Char) → List Char
  | [] => []
  | [x] => x
  | x :: rest => x ++ ' ' :: joinSpace rest

/-- `Transformer.parse` (framework.js:225-254): `input.trim().split(' ')`,
then the compare / math / predict / value cascade.  (`parts[i]` beyond
the end is JS `undefined`; it is modelled as the empty string, which like
`undefined` is in none of the operator lists and is not `'predict'`.) -/
def transformerParse (input : List Char) : NLParse :=
  let parts := splitOnSpace (jsTrim input)
  if parts.length ≥ 3 && nlCompareOps.contains (parts.getD 1 []) then
    NLParse.compareN (parts.getD 1 []) (parts.getD 0 []) (parts.getD 2 [])
  else if nlMathOps.contains (parts.getD 1 []) then
    NLParse.mathN (parts.getD 1 []) (parts.getD 0 []) (parts.getD 2 [])
  else if parts.getD 0 [] = cs "predict" then
    NLParse.mlN (parts.getD 1 []) (joinSpace (parts.drop 2))
  else NLParse.valueN input

/-- `sanitizeInput` (framework.js:573-575), same body as the parser.js
one. -/
def sanitizeInput (s : List Char) : List Char :=
  jsTrim (s.filter (fun c => !(c = '<' || c = '>' || c = '\x7b' || c = '\x7d')))

/-- Scalar payloads of `{ value: … }` nodes. -/
inductive Prim where
  | pnum : Int → Prim
  | pstr : List Char → Prim
  | pbool : Bool → Prim
deriving Repr, DecidableEq

/-- Value/expression objects of the framework pipeline: `{ get }`,
`{ value }`, `{ add|subtract|multiply|divide: [l, r] }`,
`{ classify: { model, input } }` (the stub's `input` is a plain string). -/
inductive Value where
  | get : List Char → Value
  | val : Prim → Value
  | binop : List Char → Value → Value → Value
  | classify : List Char → List Char → Value
deriving Repr, DecidableEq

/-- Condition objects: `{ compare: { left, op, right } }` plus the dead
logical junction `{ and|or: [l, r] }` that only the unreachable
`nlParse.type === 'logical'` branch could build. -/
inductive Cond where
  | compare : Value → List Char → Value → Cond
  | junction : List Char → Cond → Cond → Cond
deriving Repr, DecidableEq

/-- The constant-false comparison of `parseCondition`
(framework.js:579). -/
def constFalseF : Cond :=
  Cond.compare (Value.val (Prim.pbool false)) (cs "===") (Value.val (Prim.pbool false))

/-- Workflow steps (framework.js:423-560).  Each carries the fields its
`create…Step` builder sets: `id`, the payload, `nl_phrase` and
`nl_examples`; the fixed `access_control` descriptor is determined by the
constructor (execute-workflow for control-flow/AI steps, view-ui for the
UI steps) and is reconstructed during serialization.  `createCallStep`
is never invoked anywhere in the source, so no `call` constructor is
needed. -/
inductive Step where
  | set : List Char → List Char → Value → List Char → List (List Char) → Step
  | ifS : List Char → Cond → List Step → List Step → List Char → List (List Char) → Step
  | whileS : List Char → Cond → List Step → List Char → List (List Char) → Step
  | waitS : List Char → Nat → List Char → List (List Char) → Step
  | ret : List Char → Value → List Char → List (List Char) → Step
  | brk : List Char → List Char → List (List Char) → Step
  | aiClassify : List Char → List Char → Value → List Char → List Char → List (List Char) → Step
  | uiRender : List Char → List Char → List Char → List Char → List (List Char) → Step
  | uiState : List Char → List Char → Value → List Char → List (List Char) → Step
  | cssStyle : List Char → List Char → List (List Char) → List Char → List (List Char) → Step
  | uiEvent : List Char → List Char → List Char → List Char → List (List Char) → Step

/-- The step's `id` field. -/
def Step.idOf : Step → List Char
  | .set id _ _ _ _ => id
  | .ifS id _ _ _ _ _ => id
  | .whileS id _ _ _ _ => id
  | .waitS id _ _ _ => id
  | .ret id _ _ _ => id
  | .brk id _ _ => id
  | .aiClassify id _ _ _ _ _ => id
  | .uiRender id _ _ _ _ => id
  | .uiState id _ _ _ _ => id
  | .cssStyle id _ _ _ _ => id
  | .uiEvent id _ _ _ _ => id

/-- `{ ...step, id }`: the shallow spread-clone of the `call` rule
(framework.js:639) — every own field is copied and only the top-level
`id` is replaced; nested `then`/`else`/`body` step lists are shared
unchanged. -/
def Step.withId : Step → List Char → Step
  | .set _ t v nl ex, id => .set id t v nl ex
  | .ifS _ c th el nl ex, id => .ifS id c th el nl ex
  | .whileS _ c b nl ex, id => .whileS id c b nl ex
  | .waitS _ d nl ex, id => .waitS id d nl ex
  | .ret _ v nl ex, id => .ret id v nl ex
  | .brk _ nl ex, id => .brk id nl ex
  | .aiClassify _ m i t nl ex, id => .aiClassify id m i t nl ex
  | .uiRender _ c t nl ex, id => .uiRender id c t nl ex
  | .uiState _ n i nl ex, id => .uiState id n i nl ex
  | .cssStyle _ s p nl ex, id => .cssStyle id s p nl ex
  | .uiEvent _ e h nl ex, id => .uiEvent id e h nl ex

/-! #### JSON serialization (`JSON.stringify`), needed because the
assembler locates variable references by substring search over the
serialized step and the Mermaid renderer embeds serialized payloads in
node labels. -/

/-- JSON string escaping for the characters that can occur here. -/
def jsonEscapeChar (c : Char) : List Char :=
  if c = '"' then ['\\', '"']
  else if c = '\\' then ['\\', '\\']
  else if c = '\n' then ['\\', 'n']
  else if c = '\t' then ['\\', 't']
  else if c = '\r' then ['\\', 'r']
  else [c]

/-- A JSON string literal. -/
def jstr (s : List Char) : List Char :=
  '"' :: (s.flatMap jsonEscapeChar ++ ['"'])

/-- `{`, `}` as character lists. -/
def lb : List Char := ['\x7b']
def rb : List Char := ['\x7d']

/-- `"key":` -/
def jkey (k : String) : List Char := jstr (cs k) ++ [':']

def jsonOfPrim : Prim → List Char
  | .pnum n => cs (toString n)
  | .pstr s => jstr s
  | .pbool b => if b then cs "true" else cs "false"

def jsonOfValue : Value → List Char
  | .get n => lb ++ jkey "get" ++ jstr n ++ rb
  | .val p => lb ++ jkey "value" ++ jsonOfPrim p ++ rb
  | .binop op l r =>
    lb ++ jstr op ++ [':'] ++ ['['] ++ jsonOfValue l ++ [','] ++ jsonOfValue r ++
      [']'] ++ rb
  | .classify m i =>
    lb ++ jkey "classify" ++ lb ++ jkey "model" ++ jstr m ++ [','] ++
      jkey "input" ++ jstr i ++ rb ++ rb

def jsonOfCond : Cond → List Char
  | .compare l op r =>
    lb ++ jkey "compare" ++ lb ++ jkey "left" ++ jsonOfValue l ++ [','] ++
      jkey "op" ++ jstr op ++ [','] ++ jkey "right" ++ jsonOfValue r ++ rb ++ rb
  | .junction op l r =>
    lb ++ jstr op ++ [':'] ++ ['['] ++ jsonOfCond l ++ [','] ++ jsonOfCond r ++
      [']'] ++ rb

/-- JSON of a string array. -/
def jsonStrArray (xs : List (List Char)) : List Char :=
  '[' :: (joinComma (xs.map jstr) ++ [']'])
where
  joinComma : List (List Char) → List Char
    | [] => []
    | [x] => x
    | x :: rest => x ++ ',' :: joinComma rest

/-- The fixed `access_control` JSON for execute-workflow steps. -/
def acExec : List Char :=
  jkey "access_control" ++ lb ++ jkey "roles" ++
    jsonStrArray [cs "admin", cs "user"] ++ [','] ++ jkey "permissions" ++
    jsonStrArray [cs "execute_workflow"] ++ rb

/-- The fixed `access_control` JSON for view-ui steps. -/
def acUi : List Char :=
  jkey "access_control" ++ lb ++ jkey "roles" ++
    jsonStrArray [cs "admin", cs "user"] ++ [','] ++ jkey "permissions" ++
    jsonStrArray [cs "view_ui"] ++ rb

/-- Common head of every serialized step: `"id":…,"type":…`. -/
def jsonStepHead (id ty : List Char) : List Char :=
  lb ++ jkey "id" ++ jstr id ++ [','] ++ jkey "type" ++ jstr ty ++ [',']

/-- Common tail: `"nl_phrase":…,"nl_examples":…,"access_control":…}`. -/
def jsonStepTail (nl : List Char) (ex : List (List Char)) (ac : List Char) :
    List Char :=
  jkey "nl_phrase" ++ jstr nl ++ [','] ++ jkey "nl_examples" ++
    jsonStrArray ex ++ [','] ++ ac ++ rb

mutual

/-- `JSON.stringify(step)`: fields in the insertion order of the
`create…Step` builders. -/
def jsonOfStep : Step → List Char
  | .set id t v nl ex =>
    jsonStepHead id (cs "set") ++ jkey "target" ++ jstr t ++ [','] ++
      jkey "value" ++ jsonOfValue v ++ [','] ++ jsonStepTail nl ex acExec
  | .ifS id c th el nl ex =>
    jsonStepHead id (cs "if") ++ jkey "condition" ++ jsonOfCond c ++ [','] ++
      jkey "then" ++ jsonOfSteps th ++ [','] ++ jkey "else" ++ jsonOfSteps el ++
      [','] ++ jsonStepTail nl ex acExec
  | .whileS id c b nl ex =>
    jsonStepHead id (cs "while") ++ jkey "condition" ++ jsonOfCond c ++ [','] ++
      jkey "body" ++ jsonOfSteps b ++ [','] ++ jsonStepTail nl ex acExec
  | .waitS id d nl ex =>
    jsonStepHead id (cs "wait") ++ jkey "duration" ++ cs (toString d) ++ [','] ++
      jsonStepTail nl ex acExec
  | .ret id v nl ex =>
    jsonStepHead id (cs "return") ++ jkey "value" ++ jsonOfValue v ++ [','] ++
      jsonStepTail nl ex acExec
  | .brk id nl ex =>
    jsonStepHead id (cs "break") ++ jsonStepTail nl ex acExec
  | .aiClassify id m i t nl ex =>
    jsonStepHead id (cs "ai_classify") ++ jkey "model" ++ jstr m ++ [','] ++
      jkey "input" ++ jsonOfValue i ++ [','] ++ jkey "target" ++ jstr t ++ [','] ++
      jsonStepTail nl ex acExec
  | .uiRender id c t nl ex =>
    jsonStepHead id (cs "ui_render") ++ jkey "component" ++
      (lb ++ jkey "type" ++ jstr c ++ [','] ++ jkey "props" ++
        (lb ++ jkey "className" ++ jstr (cs "bg-gray-100 p-4") ++ rb) ++ [','] ++
        jkey "children" ++ cs "[]" ++ [','] ++ jkey "hooks" ++ cs "[]" ++ rb) ++
      [','] ++ jkey "target" ++ jstr t ++ [','] ++ jsonStepTail nl ex acUi
  | .uiState id n i nl ex =>
    jsonStepHead id (cs "ui_state") ++ jkey "state" ++
      (lb ++ jkey "name" ++ jstr n ++ [','] ++ jkey "initial" ++ jsonOfValue i ++
        rb) ++ [','] ++ jsonStepTail nl ex acUi
  | .cssStyle id sel props nl ex =>
    jsonStepHead id (cs "css_style") ++ jkey "styles" ++
      (lb ++ jkey "selector" ++ jstr sel ++ [','] ++ jkey "properties" ++
        jsonStrArray props ++ [','] ++ jkey "framework" ++
        jstr (cs "tailwind") ++ rb) ++ [','] ++ jsonStepTail nl ex acUi
  | .uiEvent id e h nl ex =>
    jsonStepHead id (cs "ui_event") ++ jkey "event" ++
      (lb ++ jkey "type" ++ jstr e ++ [','] ++ jkey "handler" ++ jstr h ++ rb) ++
      [','] ++ jsonStepTail nl ex acUi

/-- `JSON.stringify` of a step array. -/
def jsonOfSteps : List Step → List Char
  | [] => cs "[]"
  | s :: rest => '[' :: (jsonOfStep s ++ jsonOfStepsRest rest ++ [']'])

def jsonOfStepsRest : List Step → List Char
  | [] => []
  | s :: rest => ',' :: (jsonOfStep s ++ jsonOfStepsRest rest)

end

/-! #### Step builders (framework.js:423-560).  Every call site passes an
`nl_phrase` and never passes `nl_examples`, so `nl_examples` always
becomes the builder's default singleton. -/

def createSetStep (id target : List Char) (v : Value) (nl : Option (List Char)) :
    Step :=
  let dflt := cs "set " ++ target ++ cs " to " ++ jsonOfValue v
  Step.set id target v (nl.getD dflt) [dflt]

def createIfStep (id : List Char) (c : Cond) (thenS elseS : List Step)
    (nl : Option (List Char)) : Step :=
  let dflt := cs "if " ++ jsonOfCond c
  Step.ifS id c thenS elseS (nl.getD dflt) [dflt]

def createWhileStep (id : List Char) (c : Cond) (body : List Step)
    (nl : Option (List Char)) : Step :=
  let dflt := cs "while " ++ jsonOfCond c
  Step.whileS id c body (nl.getD dflt) [dflt]

def createWaitStep (id : List Char) (duration : Nat) (nl : Option (List Char)) :
    Step :=
  let dflt := cs "wait " ++ cs (toString duration) ++ cs " seconds"
  Step.waitS id duration (nl.getD dflt) [dflt]

def createReturnStep (id : List Char) (v : Value) (nl : Option (List Char)) :
    Step :=
  let dflt := cs "return " ++ jsonOfValue v
  Step.ret id v (nl.getD dflt) [dflt]

def createBreakStep (id : List Char) (nl : Option (List Char)) : Step :=
  let dflt := cs "break"
  Step.brk id (nl.getD dflt) [dflt]

def createAIAnalysisStep (id model : List Char) (input : Value)
    (target : List Char) (nl : Option (List Char)) : Step :=
  let dflt := cs "analyze " ++ jsonOfValue input ++ cs " with " ++ model
  Step.aiClassify id model input target (nl.getD dflt) [dflt]

def createUIRenderStep (id componentType target : List Char)
    (nl : Option (List Char)) : Step :=
  let dflt := cs "render " ++ componentType ++ cs " as " ++ target
  Step.uiRender id componentType target (nl.getD dflt) [dflt]

def createUIStateStep (id name : List Char) (initial : Value)
    (nl : Option (List Char)) : Step :=
  let dflt := cs "define state " ++ name
  Step.uiState id name initial (nl.getD dflt) [dflt]

def createCSSStyleStep (id selector : List Char) (props : List (List Char))
    (nl : Option (List Char)) : Step :=
  let dflt := cs "style " ++ selector
  Step.cssStyle id selector props (nl.getD dflt) [dflt]

def createUIEventStep (id eventType handler : List Char)
    (nl : Option (List Char)) : Step :=
  let dflt := cs "on " ++ eventType ++ cs " execute " ++ handler
  Step.uiEvent id eventType handler (nl.getD dflt) [dflt]

/-- `inferType` (framework.js:562-571): literal number/boolean/string by
`typeof`; a math node → `number`; a logical node → `boolean` (no `Value`
constructor can carry one, the branch is vacuous); `classify`/`predict`
→ `tensor`; everything else → `string`. -/
def inferType : Value → List Char
  | .val (Prim.pnum _) => cs "number"
  | .val (Prim.pbool _) => cs "boolean"
  | .val (Prim.pstr _) => cs "string"
  | .binop op _ _ => if nlMathOps.contains op then cs "number" else cs "string"
  | .classify _ _ => cs "tensor"
  | .get _ => cs "string"

/-- `parseExpression` (framework.js:601-616): sanitize, ask the
transformer stub, then build the value.  The stub's `math` result always
carries `{ variable: parts[0] }` on the left (a non-empty name, since the
parts come from a trimmed split) and `{ value: parts[2] }` (a string) on
the right; a `compare`/`logical` result has neither `.variable` nor
`.value`, so the final line yields `{ value: undefined || sanitized }`. -/
def parseExpressionF (valueStr : List Char) : Value :=
  let sanitized := sanitizeInput valueStr
  match transformerParse sanitized with
  | NLParse.mathN op l r => Value.binop op (Value.get l) (Value.val (Prim.pstr r))
  | NLParse.mlN m i => Value.classify m i
  | NLParse.compareN _ _ _ => Value.val (Prim.pstr sanitized)
  | NLParse.logicalN _ _ _ => Value.val (Prim.pstr sanitized)
  | NLParse.valueN v => Value.val (Prim.pstr (if v = [] then sanitized else v))

/-- `parseCondition` (framework.js:577-599).  The `logical` branch is
dead (the stub never produces it) but transcribed; its recursion is the
only use of the fuel. -/
def parseConditionF : Nat → List Char → Cond
  | 0, _ => constFalseF
  | fuel + 1, condStr =>
    let sanitized := sanitizeInput condStr
    if sanitized = [] then constFalseF
    else
      match transformerParse sanitized with
      | NLParse.logicalN op l r =>
        Cond.junction op (parseConditionF fuel l) (parseConditionF fuel r)
      | NLParse.compareN op l r =>
        Cond.compare (Value.get l) op (Value.val (Prim.pstr r))
      | _ =>
        Cond.compare (Value.get sanitized) (cs "===")
          (Value.val (Prim.pbool true))

/-! #### The compilation context (framework.js:371-399) -/

/-- `AdvancedParserContext`: the step-id counter (starting at 1), the
type map, the diagnostics and the macro table, all JS objects modelled as
insertion-ordered association lists. -/
structure Ctx where
  counter : Nat
  typeMap : List (List Char × List Char)
  errors : List (List Char)
  macroTable : List (List Char × List Step)

/-- A fresh context. -/
def Ctx.init : Ctx := ⟨1, [], [], []⟩

/-- `nextId()`: `step${this.stepCounter++}`. -/
def nextId (ctx : Ctx) : List Char × Ctx :=
  (cs "step" ++ cs (toString ctx.counter), { ctx with counter := ctx.counter + 1 })

/-- `addError`. -/
def addError (ctx : Ctx) (msg : List Char) : Ctx :=
  { ctx with errors := ctx.errors ++ [msg] }

/-- JS object property write: update in place, else append (preserves
`Object.keys` insertion order). -/
def objSet {α : Type} : List (List Char × α) → List Char → α → List (List Char × α)
  | [], k, v => [(k, v)]
  | (k', v') :: rest, k, v =>
    if k' = k then (k, v) :: rest else (k', v') :: objSet rest k v

/-- JS object property read. -/
def objGet {α : Type} : List (List Char × α) → List Char → Option α
  | [], _ => none
  | (k', v') :: rest, k => if k' = k then some v' else objGet rest k

/-! #### The thirteen dispatch patterns (framework.js:618-768), modelled
as deterministic matchers with the regexes' actual backtracking
behaviour. -/

/-- `\s+` followed by skipping the (greedy) whitespace run. -/
def reqWs : List Char → Option (List Char)
  | [] => none
  | c :: rest =>
    if jsIsWs c then some ((c :: rest).dropWhile jsIsWs) else none

/-- `(\w+)`: greedy non-empty word run plus remainder. -/
def wordRun1 (s : List Char) : Option (List Char × List Char) :=
  let w := s.takeWhile isWordChar
  if w = [] then none else some (w, s.dropWhile isWordChar)

/-- `(\d+)`. -/
def digitRun1 (s : List Char) : Option (List Char × List Char) :=
  let w := s.takeWhile isDigitChar
  if w = [] then none else some (w, s.dropWhile isDigitChar)

/-- `(\S+)`. -/
def nonWsRun1 (s : List Char) : Option (List Char × List Char) :=
  let w := s.takeWhile (fun c => !jsIsWs c)
  if w = [] then none else some (w, s.dropWhile (fun c => !jsIsWs c))

/-- `\s+(.+)$`: at least one whitespace, then a non-empty rest.  When
everything after the first whitespace is whitespace too, the greedy
`\s+` backtracks one step so `(.+)` captures the final whitespace
character (JS `.` matches a space). -/
def wsThenRest (s : List Char) : Option (List Char) :=
  match s with
  | [] => none
  | c :: rest =>
    if !jsIsWs c then none
    else
      let tail := (c :: rest).dropWhile jsIsWs
      if tail ≠ [] then some tail
      else
        match rest.reverse with
        | [] => none
        | lastWs :: _ => some [lastWs]

/-- `^macro\s+(\w+)\s+(.+)$/i` → (name, body). -/
def matchMacroLine (s : List Char) : Option (List Char × List Char) :=
  match ciStarts (cs "macro") s with
  | none => none
  | some afterKw =>
    match reqWs afterKw with
    | none => none
    | some afterWs =>
      match wordRun1 afterWs with
      | none => none
      | some (name, rest) =>
        match wsThenRest rest with
        | none => none
        | some body => some (name, body)

/-- `^call\s+(\w+)$/i` → macro name. -/
def matchCallLine (s : List Char) : Option (List Char) :=
  match ciStarts (cs "call") s with
  | none => none
  | some afterKw =>
    match reqWs afterKw with
    | none => none
    | some afterWs =>
      match wordRun1 afterWs with
      | none => none
      | some (name, rest) => if rest = [] then some name else none

/-- The tail `\s+(\d+)\s+times$` of the repeat pattern, tried at one
lazy split point. -/
def repeatTailAt (s : List Char) : Option (List Char) :=
  match reqWs s with
  | none => none
  | some afterWs1 =>
    match digitRun1 afterWs1 with
    | none => none
    | some (digits, rest1) =>
      match reqWs rest1 with
      | none => none
      | some rest2 =>
        match ciStarts (cs "times") rest2 with
        | none => none
        | some rest3 => if rest3 = [] then some digits else none

/-- The lazy scan for `(.+?)\s+(\d+)\s+times$`: the shortest non-empty
body whose remainder matches the tail. -/
def repeatScan : Nat → List Char → List Char → Option (List Char × List Char)
  | 0, _, _ => none
  | _ + 1, _, [] => none
  | fuel + 1, bodyRev, c :: rest =>
    match repeatTailAt rest with
    | some digits => some ((c :: bodyRev).reverse, digits)
    | none => repeatScan fuel (c :: bodyRev) rest

/-- `^(?:repeat|loop)\s+(.+?)\s+(\d+)\s+times$/i` → (body, times). -/
def matchRepeatLine (s : List Char) : Option (List Char × List Char) :=
  let afterKw :=
    match ciStarts (cs "repeat") s with
    | some a => some a
    | none => ciStarts (cs "loop") s
  match afterKw with
  | none => none
  | some a =>
    match reqWs a with
    | none => none
    | some afterWs => repeatScan (afterWs.length + 1) [] afterWs

/-- `\s+else\s+(.+)$` tried at one lazy split point of the then-part. -/
def elseTailAt (s : List Char) : Option (List Char) :=
  match reqWs s with
  | none => none
  | some afterWs =>
    match ciStarts (cs "else") afterWs with
    | none => none
    | some afterKw => wsThenRest afterKw

/-- Lazy scan of `(.+?)(?:\s+else\s+(.+))?$`: at each boundary first try
the optional else-group, else succeed only at end-of-input. -/
def thenScan : Nat → List Char → List Char → Option (List Char × Option (List Char))
  | 0, _, _ => none
  | _ + 1, _, [] => none
  | fuel + 1, accRev, c :: rest =>
    match elseTailAt rest with
    | some e => some ((c :: accRev).reverse, some e)
    | none =>
      if rest = [] then some ((c :: accRev).reverse, none)
      else thenScan fuel (c :: accRev) rest

/-- `\s+then\s+…` tried at one lazy split point of the condition. -/
def thenTailAt (s : List Char) : Option (List Char × Option (List Char)) :=
  match reqWs s with
  | none => none
  | some afterWs =>
    match ciStarts (cs "then") afterWs with
    | none => none
    | some afterKw =>
      match wsThenRest afterKw with
      | none => none
      | some rest => thenScan (rest.length + 1) [] rest

/-- `^if\s+(.+?)\s+then\s+(.+?)(?:\s+else\s+(.+))?$/i`
→ (condition, then-part, optional else-part). -/
def matchIfLine (s : List Char) :
    Option (List Char × List Char × Option (List Char)) :=
  match ciStarts (cs "if") s with
  | none => none
  | some afterKw =>
    match reqWs afterKw with
    | none => none
    | some afterWs => condScan (afterWs.length + 1) [] afterWs
where
  condScan : Nat → List Char → List Char →
      Option (List Char × List Char × Option (List Char))
    | 0, _, _ => none
    | _ + 1, _, [] => none
    | fuel + 1, accRev, c :: rest =>
      match thenTailAt rest with
      | some (thenS, elseS) => some ((c :: accRev).reverse, thenS, elseS)
      | none => condScan fuel (c :: accRev) rest

/-- `^wait\s+(\d+)\s+seconds$/i` → duration digits. -/
def matchWaitLine (s : List Char) : Option (List Char) :=
  match ciStarts (cs "wait") s with
  | none => none
  | some afterKw =>
    match reqWs afterKw with
    | none => none
    | some afterWs =>
      match digitRun1 afterWs with
      | none => none
      | some (digits, rest1) =>
        match reqWs rest1 with
        | none => none
        | some rest2 =>
          match ciStarts (cs "seconds") rest2 with
          | none => none
          | some rest3 => if rest3 = [] then some digits else none

/-- `^(?:set|assign)\s+(\w+)\s+to\s+(.+)$/i` → (target, raw value). -/
def matchSetLine (s : List Char) : Option (List Char × List Char) :=
  let afterKw :=
    match ciStarts (cs "set") s with
    | some a => some a
    | none => ciStarts (cs "assign") s
  match afterKw with
  | none => none
  | some a =>
    match reqWs a with
    | none => none
    | some afterWs =>
      match wordRun1 afterWs with
      | none => none
      | some (target, rest) =>
        match reqWs rest with
        | none => none
        | some rest1 =>
          match ciStarts (cs "to") rest1 with
          | none => none
          | some rest2 =>
            match wsThenRest rest2 with
            | none => none
            | some value => some (target, value)

/-- `^break$/i`. -/
def matchBreakLine (s : List Char) : Bool :=
  match ciStarts (cs "break") s with
  | some rest => rest = []
  | none => false

/-- `^return\s+(.+)$/i` → raw value. -/
def matchReturnLine (s : List Char) : Option (List Char) :=
  match ciStarts (cs "return") s with
  | none => none
  | some afterKw => wsThenRest afterKw

/-- `\s+with\s+(\w+)$` tried at one lazy split point. -/
def withTailAt (s : List Char) : Option (List Char) :=
  match reqWs s with
  | none => none
  | some afterWs =>
    match ciStarts (cs "with") afterWs with
    | none => none
    | some afterKw =>
      match reqWs afterKw with
      | none => none
      | some rest =>
        match wordRun1 rest with
        | none => none
        | some (model, rest1) => if rest1 = [] then some model else none

/-- `^analyze\s+(.+?)\s+with\s+(\w+)$/i` → (input, model). -/
def matchAnalyzeLine (s : List Char) : Option (List Char × List Char) :=
  match ciStarts (cs "analyze") s with
  | none => none
  | some afterKw =>
    match reqWs afterKw with
    | none => none
    | some afterWs => go (afterWs.length + 1) [] afterWs
where
  go : Nat → List Char → List Char → Option (List Char × List Char)
    | 0, _, _ => none
    | _ + 1, _, [] => none
    | fuel + 1, accRev, c :: rest =>
      match withTailAt rest with
      | some model => some ((c :: accRev).reverse, model)
      | none => go fuel (c :: accRev) rest

/-- `^render\s+(\w+)\s+as\s+(\w+)$/i` → (component type, target). -/
def matchRenderLine (s : List Char) : Option (List Char × List Char) :=
  match ciStarts (cs "render") s with
  | none => none
  | some a1 =>
    match reqWs a1 with
    | none => none
    | some a2 =>
      match wordRun1 a2 with
      | none => none
      | some (compTy, r1) =>
        match reqWs r1 with
        | none => none
        | some r2 =>
          match ciStarts (cs "as") r2 with
          | none => none
          | some r3 =>
            match reqWs r3 with
            | none => none
            | some r4 =>
              match wordRun1 r4 with
              | none => none
              | some (target, r5) => if r5 = [] then some (compTy, target) else none

/-- `^state\s+(\w+)\s+as\s+(.+)$/i` → (name, initial). -/
def matchStateLine (s : List Char) : Option (List Char × List Char) :=
  match ciStarts (cs "state") s with
  | none => none
  | some a1 =>
    match reqWs a1 with
    | none => none
    | some a2 =>
      match wordRun1 a2 with
      | none => none
      | some (name, r1) =>
        match reqWs r1 with
        | none => none
        | some r2 =>
          match ciStarts (cs "as") r2 with
          | none => none
          | some r3 =>
            match wsThenRest r3 with
            | none => none
            | some initial => some (name, initial)

/-- `^style\s+(\S+)\s+with\s+(.+)$/i` → (selector, props). -/
def matchStyleLine (s : List Char) : Option (List Char × List Char) :=
  match ciStarts (cs "style") s with
  | none => none
  | some a1 =>
    match reqWs a1 with
    | none => none
    | some a2 =>
      match nonWsRun1 a2 with
      | none => none
      | some (selector, r1) =>
        match reqWs r1 with
        | none => none
        | some r2 =>
          match ciStarts (cs "with") r2 with
          | none => none
          | some r3 =>
            match wsThenRest r3 with
            | none => none
            | some props => some (selector, props)

/-- `^on\s+(\w+)\s+execute\s+(\w+)$/i` → (event type, handler). -/
def matchOnLine (s : List Char) : Option (List Char × List Char) :=
  match ciStarts (cs "on") s with
  | none => none
  | some a1 =>
    match reqWs a1 with
    | none => none
    | some a2 =>
      match wordRun1 a2 with
      | none => none
      | some (eventTy, r1) =>
        match reqWs r1 with
        | none => none
        | some r2 =>
          match ciStarts (cs "execute") r2 with
          | none => none
          | some r3 =>
            match reqWs r3 with
            | none => none
            | some r4 =>
              match wordRun1 r4 with
              | none => none
              | some (handler, r5) => if r5 = [] then some (eventTy, handler) else none

/-- `stylesStr.split(',')`. -/
def splitOnComma : List Char → List (List Char)
  | [] => [[]]
  | c :: rest =>
    if c = ',' then [] :: splitOnComma rest
    else
      match splitOnComma rest with
      | [] => [[c]]
      | piece :: more => (c :: piece) :: more

/-- The map of the `call` rule (framework.js:639):
`macroSteps.map(step => ({ ...step, id: context.nextId() }))` — a fresh
top-level id per cloned step, nested step lists shared. -/
def cloneSteps : List Step → Ctx → List Step × Ctx
  | [], ctx => ([], ctx)
  | s :: rest, ctx =>
    let r := nextId ctx
    let res := cloneSteps rest r.2
    (s.withId r.1 :: res.1, res.2)

/-- A captured `(\d+)` group is numeric for JS `isNaN` purposes. -/
def isNumericStr (s : List Char) : Bool := s ≠ [] && s.all isDigitChar

/-- `parseSentence` (framework.js:770-777) together with the thirteen
rule bodies (framework.js:618-768), tried in registry order; the first
matching pattern's builder runs, otherwise the
`Unrecognized command: "<line>"` diagnostic is recorded and no steps are
produced.  Recursive sentence parses (macro bodies, loop bodies, branch
arms) run on strictly shorter strings; the fuel is one more than the
sentence length. -/
def parseSentenceF : Nat → List Char → Ctx → List Step × Ctx
  | 0, _, ctx => ([], ctx)
  | fuel + 1, sentence, ctx =>
    match matchMacroLine sentence with
    | some (name, bodyStr) =>
      -- macro rule: parse the body, store it, emit nothing
      let res := parseSentenceF fuel bodyStr ctx
      ([], { res.2 with macroTable := objSet res.2.macroTable name res.1 })
    | none =>
    match matchCallLine sentence with
    | some name =>
      -- call rule: clone the template with fresh top-level ids
      let tmpl := (objGet ctx.macroTable name).getD []
      if tmpl.isEmpty then ([], addError ctx (cs "Unknown macro: " ++ name))
      else cloneSteps tmpl ctx
    | none =>
    match matchRepeatLine sentence with
    | some (bodyStr, times) =>
      if bodyStr = [] ∨ ¬isNumericStr times then
        -- dead guard: the captures are non-empty and numeric by the pattern
        ([], addError ctx (cs "Invalid repeat command: \"" ++ sentence ++ cs "\""))
      else
        let r1 := nextId ctx
        let id := r1.1
        let counter := cs "_loop_counter_" ++ id
        let r2 := nextId r1.2
        let init := createSetStep r2.1 counter (Value.val (Prim.pnum 0))
          (some (cs "set " ++ counter ++ cs " to 0"))
        let rb := parseSentenceF fuel bodyStr r2.2
        let r3 := nextId rb.2
        let inc := createSetStep r3.1 counter
          (Value.binop (cs "add") (Value.get counter) (Value.val (Prim.pnum 1)))
          (some (cs "set " ++ counter ++ cs " to " ++ counter ++ cs " + 1"))
        let loop := createWhileStep id
          (Cond.compare (Value.get counter) (cs "<")
            (Value.val (Prim.pnum (Int.ofNat (digitsVal times)))))
          (rb.1 ++ [inc])
          (some (cs "repeat " ++ bodyStr ++ cs " " ++ times ++ cs " times"))
        ([init, loop],
         { r3.2 with typeMap := objSet r3.2.typeMap counter (cs "number") })
    | none =>
    match matchIfLine sentence with
    | some (condStr, thenStr, elseOpt) =>
      let cond := parseConditionF (condStr.length + 1) condStr
      let tr := parseSentenceF fuel thenStr ctx
      let er := match elseOpt with
        | some e => parseSentenceF fuel e tr.2
        | none => ([], tr.2)
      let r := nextId er.2
      let nl := cs "if " ++ condStr ++ cs " then " ++ thenStr ++
        (match elseOpt with | some e => cs " else " ++ e | none => [])
      ([createIfStep r.1 cond tr.1 er.1 (some nl)], r.2)
    | none =>
    match matchWaitLine sentence with
    | some digits =>
      if ¬isNumericStr digits then
        -- dead guard, as in the source
        ([], addError ctx (cs "Invalid wait duration: \"" ++ digits ++ cs "\""))
      else
        let seconds := digitsVal digits
        let r := nextId ctx
        ([createWaitStep r.1 seconds
            (some (cs "wait " ++ cs (toString seconds) ++ cs " seconds"))], r.2)
    | none =>
    match matchSetLine sentence with
    | some (target, rawValue) =>
      if ¬(target ≠ [] ∧ target.all isWordChar) then
        -- dead guard: the (\w+) capture always satisfies it
        ([], addError ctx (cs "Invalid variable name: \"" ++ target ++ cs "\""))
      else
        let value := parseExpressionF rawValue
        let c1 := { ctx with typeMap := objSet ctx.typeMap target (inferType value) }
        let r := nextId c1
        ([createSetStep r.1 target value
            (some (cs "set " ++ target ++ cs " to " ++ rawValue))], r.2)
    | none =>
    if matchBreakLine sentence then
      let r := nextId ctx
      ([createBreakStep r.1 (some (cs "break"))], r.2)
    else
    match matchReturnLine sentence with
    | some raw =>
      let valueStr := jsTrim raw
      if valueStr = [] then
        ([], addError ctx (cs "Return statement requires a value"))
      else
        let value := parseExpressionF valueStr
        let r := nextId ctx
        ([createReturnStep r.1 value (some (cs "return " ++ valueStr))], r.2)
    | none =>
    match matchAnalyzeLine sentence with
    | some (input, model) =>
      let parsedInput := parseExpressionF input
      let r := nextId ctx
      ([createAIAnalysisStep r.1 model parsedInput (cs "result_" ++ model)
          (some (cs "analyze " ++ input ++ cs " with " ++ model))], r.2)
    | none =>
    match matchRenderLine sentence with
    | some (compTy, target) =>
      let r := nextId ctx
      ([createUIRenderStep r.1 compTy target
          (some (cs "render " ++ compTy ++ cs " as " ++ target))], r.2)
    | none =>
    match matchStateLine sentence with
    | some (name, initialStr) =>
      let initial := parseExpressionF initialStr
      let r := nextId ctx
      ([createUIStateStep r.1 name initial
          (some (cs "state " ++ name ++ cs " as " ++ initialStr))], r.2)
    | none =>
    match matchStyleLine sentence with
    | some (selector, stylesStr) =>
      let props := (splitOnComma stylesStr).map jsTrim
      let r := nextId ctx
      ([createCSSStyleStep r.1 selector props
          (some (cs "style " ++ selector ++ cs " with " ++ stylesStr))], r.2)
    | none =>
    match matchOnLine sentence with
    | some (eventTy, handler) =>
      let r := nextId ctx
      ([createUIEventStep r.1 eventTy handler
          (some (cs "on " ++ eventTy ++ cs " execute " ++ handler))], r.2)
    | none =>
      ([], addError ctx (cs "Unrecognized command: \"" ++ sentence ++ cs "\""))

/-- The step-assembly phase of `generateWorkflow` (framework.js:860-865):
split on newlines, trim, drop empty lines, dispatch each line through
`parseSentence` against the shared context, concatenating the per-line
step lists in line order (which `Promise.all` preserves).

Scope of fidelity: the source starts every line's `parseSentence` in one
synchronous tick and awaits `Promise.all`, so on general multi-line
inputs the shared context interleaves through the microtask queue — a
`macro` line's `defineMacro` runs only after an `await`, while a later
`call` line reads the macro table synchronously before it, and id
assignment can cross lines.  This sequential fold therefore coincides
with the source exactly when the line-level concurrency cannot act:
(a) single-line inputs — one await chain, program order preserved;
(b) inputs all of whose lines run fully synchronously (lines matching no
rule, or only the await-free `call`/`wait`/`break`/`render`/`style`/`on`
rules); and (c) inputs whose non-final lines are fully synchronous while
only the final line suspends.  Every theorem below applies
`compileSteps` only to inputs in this fragment. -/
def compileSteps (input : String) : List Step × Ctx :=
  let lines := ((splitOnNl input.data).map jsTrim).filter (fun l => l ≠ [])
  lines.foldl
    (fun acc line =>
      let res := parseSentenceF (line.length + 1) line acc.2
      (acc.1 ++ res.1, res.2))
    ([], Ctx.init)

/-! #### Variable-reference collection and the inputs/outputs manifests -/

/-- The names referenced by `{ get: … }` nodes of a value tree. -/
def getsOfValue : Value → List (List Char)
  | .get n => [n]
  | .val _ => []
  | .binop _ l r => getsOfValue l ++ getsOfValue r
  | .classify _ _ => []

def getsOfCond : Cond → List (List Char)
  | .compare l _ r => getsOfValue l ++ getsOfValue r
  | .junction _ l r => getsOfCond l ++ getsOfCond r

mutual

/-- All `VariableRef` (`get`) names occurring anywhere in a step,
including nested branches and bodies. -/
def getsOfStep : Step → List (List Char)
  | .set _ _ v _ _ => getsOfValue v
  | .ifS _ c th el _ _ => getsOfCond c ++ getsOfSteps th ++ getsOfSteps el
  | .whileS _ c b _ _ => getsOfCond c ++ getsOfSteps b
  | .waitS _ _ _ _ => []
  | .ret _ v _ _ => getsOfValue v
  | .brk _ _ _ => []
  | .aiClassify _ _ i _ _ _ => getsOfValue i
  | .uiRender _ _ _ _ _ => []
  | .uiState _ _ i _ _ => getsOfValue i
  | .cssStyle _ _ _ _ _ => []
  | .uiEvent _ _ _ _ _ => []

def getsOfSteps : List Step → List (List Char)
  | [] => []
  | s :: rest => getsOfStep s ++ getsOfSteps rest

end

mutual

/-- All step ids occurring anywhere in a step tree. -/
def idsOfStep : Step → List (List Char)
  | .ifS id _ th el _ _ => id :: (idsOfSteps th ++ idsOfSteps el)
  | .whileS id _ b _ _ => id :: idsOfSteps b
  | s => [s.idOf]

def idsOfSteps : List Step → List (List Char)
  | [] => []
  | s :: rest => idsOfStep s ++ idsOfSteps rest

end

/-- Does the list contain a duplicate entry? -/
def hasDup : List (List Char) → Bool
  | [] => false
  | x :: rest => rest.contains x || hasDup rest

/-- `context.typeMap[name] || 'string'`. -/
def typeOrString (tm : List (List Char × List Char)) (name : List Char) :
    List Char :=
  match objGet tm name with
  | some t => if t = [] then cs "string" else t
  | none => cs "string"

/-- The `inputs` manifest (framework.js:867-871): the keys of `typeMap`
whose `"get":"<name>"` marker occurs as a substring of some serialized
step, each typed by `typeMap[name] || 'string'` (only the `type` field
of the entries is carried). -/
def inputsOf (tm : List (List Char × List Char)) (steps : List Step) :
    List (List Char × List Char) :=
  ((tm.map Prod.fst).filter (fun v =>
      steps.any (fun s =>
        includesSub (jsonOfStep s) (cs "\"get\":\"" ++ v ++ cs "\"")))).map
    (fun name => (name, typeOrString tm name))

/-- The `outputs` manifest (framework.js:873-877): the keys of `typeMap`
that are the `target` of some top-level `set` step. -/
def outputsOf (tm : List (List Char × List Char)) (steps : List Step) :
    List (List Char × List Char) :=
  ((tm.map Prod.fst).filter (fun v =>
      steps.any (fun s =>
        match s with
        | Step.set _ t _ _ _ => t = v
        | _ => false))).map
    (fun name => (name, typeOrString tm name))

/-! #### The schema validation gate (framework.js:15-146, 856-857,
940-943).  `Ajv` itself is an external collaborator; modelled here are
the structural constraints of the embedded `SCHEMA` that the generated
document can actually violate: `steps` must be non-empty
(`minItems: 1`), each step's `id` must match `^step[0-9]+$`, its `type`
must be in the schema's enum (which lists neither `while`, `wait` nor
`break`), and exactly one `oneOf` branch must accept it (the branches'
required payload fields are carried by construction in this model).
Every other field of the generated document (fixed metadata, policies,
configs, the `workflow_<uuid-hex>` function name) always satisfies the
schema and is not carried. -/

/-- `^step[0-9]+$`. -/
def idPatternOk (id : List Char) : Bool :=
  startsWithL (cs "step") id && (id.drop 4) ≠ [] && (id.drop 4).all isDigitChar

/-- The `type` enum of the schema's step items. -/
def schemaTypeEnum : List (List Char) :=
  [cs "set", cs "if", cs "return", cs "call", cs "foreach", cs "map",
   cs "filter", cs "parse_json", cs "format_string", cs "ai_infer",
   cs "ai_train", cs "ai_finetune", cs "ai_classify", cs "ai_embed",
   cs "ai_evaluate", cs "ai_explain", cs "ui_render", cs "ui_state",
   cs "css_style", cs "ui_event", cs "crypto_sign",
   cs "blockchain_operation", cs "game_render", cs "custom_"]

/-- The `type` string of a step. -/
def Step.typeName : Step → List Char
  | .set _ _ _ _ _ => cs "set"
  | .ifS _ _ _ _ _ _ => cs "if"
  | .whileS _ _ _ _ _ => cs "while"
  | .waitS _ _ _ _ => cs "wait"
  | .ret _ _ _ _ => cs "return"
  | .brk _ _ _ => cs "break"
  | .aiClassify _ _ _ _ _ _ => cs "ai_classify"
  | .uiRender _ _ _ _ _ => cs "ui_render"
  | .uiState _ _ _ _ _ => cs "ui_state"
  | .cssStyle _ _ _ _ _ => cs "css_style"
  | .uiEvent _ _ _ _ _ => cs "ui_event"

/-- Does exactly one `oneOf` branch accept the step?  Branches select on
`type` constants; `while`, `wait` and `break` have no branch. -/
def oneOfOk (s : Step) : Bool :=
  match s with
  | .set _ _ _ _ _ => true
  | .ifS _ _ _ _ _ _ => true
  | .ret _ _ _ _ => true
  | .aiClassify _ _ _ _ _ _ => true
  | .uiRender _ _ _ _ _ => true
  | .uiState _ _ _ _ _ => true
  | .cssStyle _ _ _ _ _ => true
  | .uiEvent _ _ _ _ _ => true
  | .whileS _ _ _ _ _ => false
  | .waitS _ _ _ _ => false
  | .brk _ _ _ => false

mutual

/-- One step against the schema's step-item subschema; nested
`then`/`else`/`body` arrays recurse through the `$ref`. -/
def validStep (s : Step) : Bool :=
  idPatternOk s.idOf && schemaTypeEnum.contains s.typeName && oneOfOk s &&
    (match s with
     | .ifS _ _ th el _ _ => validSteps th && validSteps el
     | .whileS _ _ b _ _ => validSteps b
     | _ => true)

def validSteps : List Step → Bool
  | [] => true
  | s :: rest => validStep s && validSteps rest

end

/-- The steps-portion of the schema check: `minItems: 1` plus every item
valid. -/
def validateWorkflowSteps (steps : List Step) : Bool :=
  !steps.isEmpty && validSteps steps

/-! #### The workflow document and the Mermaid renderer -/

/-- The parts of the generated workflow document that depend on the
input (framework.js:879-936): the step list and the `inputs`/`outputs`
manifests of `schema`.  The remaining fields (function name, metadata,
policies, registry, configs, tests) are fixed or derived boilerplate
that always satisfies the embedded schema. -/
structure Workflow where
  inputs : List (List Char × List Char)
  outputs : List (List Char × List Char)
  steps : List Step

/-- `….replace(/"/g, '"')` — the source replaces every double quote with
a double quote, i.e. the identity substitution, transcribed literally. -/
def replaceQuotes (s : List Char) : List Char :=
  s.map (fun c => if c = '"' then '"' else c)

/-- Mutable state of `renderWorkflowAsMermaid`'s walk: the `nodes` and
`edges` arrays and the `prevNode` variable. -/
structure RSt where
  nodes : List (List Char)
  edges : List (List Char)
  prev : List Char

mutual

/-- One iteration of the `renderSteps` forEach (framework.js:787-843):
compute the label (for `if`/`while` first pushing the subgraph edge and
recursively rendering the nested steps, which advances `prevNode`), then
push the node, the edge from the current `prevNode`, and move
`prevNode`. -/
def renderStep (pfx : List Char) (st : RSt) (s : Step) : RSt :=
  let nodeId := cs "STEP" ++ s.idOf ++ pfx
  let labelled : List Char × RSt :=
    match s with
    | .set _ t v _ _ =>
      (cs "Set " ++ t ++ cs " = " ++ replaceQuotes (jsonOfValue v), st)
    | .ifS _ c th el _ _ =>
      let st1 : RSt :=
        { st with
          edges := st.edges ++
            [nodeId ++ cs " -->|Then| " ++ nodeId ++ cs "_THEN[Subgraph]"] }
      let st2 := renderStepList (pfx ++ cs "_THEN") st1 th
      let st3 :=
        if el.isEmpty then st2
        else
          let st2e : RSt :=
            { st2 with
              edges := st2.edges ++
                [nodeId ++ cs " -->|Else| " ++ nodeId ++ cs "_ELSE[Subgraph]"] }
          renderStepList (pfx ++ cs "_ELSE") st2e el
      (cs "If " ++ replaceQuotes (jsonOfCond c), st3)
    | .whileS _ c b _ _ =>
      let st1 : RSt :=
        { st with
          edges := st.edges ++
            [nodeId ++ cs " -->|Body| " ++ nodeId ++ cs "_BODY[Subgraph]"] }
      let st2 := renderStepList (pfx ++ cs "_BODY") st1 b
      (cs "While " ++ replaceQuotes (jsonOfCond c), st2)
    | .waitS _ d _ _ => (cs "Wait " ++ cs (toString d) ++ cs "s", st)
    | .ret _ v _ _ => (cs "Return " ++ replaceQuotes (jsonOfValue v), st)
    | .brk _ _ _ => (cs "Break", st)
    | .aiClassify _ m _ t _ _ =>
      (cs "Analyze with " ++ m ++ cs " -> " ++ t, st)
    | .uiRender _ c t _ _ => (cs "Render " ++ c ++ cs " -> " ++ t, st)
    | .uiState _ n _ _ _ => (cs "State " ++ n, st)
    | .cssStyle _ sel _ _ _ => (cs "Style " ++ sel, st)
    | .uiEvent _ e h _ _ => (cs "On " ++ e ++ cs " -> " ++ h, st)
  let st' := labelled.2
  { nodes := st'.nodes ++ [nodeId ++ cs "[\"" ++ labelled.1 ++ cs "\"]"],
    edges := st'.edges ++ [st'.prev ++ cs " --> " ++ nodeId],
    prev := nodeId }

def renderStepList (pfx : List Char) (st : RSt) : List Step → RSt
  | [] => st
  | s :: rest => renderStepList pfx (renderStep pfx st s) rest

end

/-- Join with newlines (`[...].join('\n')`). -/
def joinNl : List (List Char) → List Char
  | [] => []
  | [x] => x
  | x :: rest => x ++ '\n' :: joinNl rest

/-- `renderWorkflowAsMermaid` (framework.js:779-849).  A JS-`null`
workflow (or one without a `steps` field, which the generated document
never is — an empty array is truthy) renders the fixed invalid-workflow
graph; otherwise the walk starts from `START[Start]` and a final edge to
`END[End]` is appended. -/
def renderWorkflowAsMermaid (w : Option Workflow) : List Char :=
  match w with
  | none => cs "graph TD\nA[Invalid Workflow] --> B[No Steps]"
  | some wf =>
    let st0 : RSt :=
      { nodes := [cs "graph TD", cs "START[Start]"], edges := [], prev := cs "START" }
    let st := renderStepList [] st0 wf.steps
    joinNl (st.nodes ++ (st.edges ++ [st.prev ++ cs " --> END[End]"]))

/-- `generateWorkflow` (framework.js:851-946) as far as the claims reach:
the guard on non-string/empty input, the per-line parse against one
fresh context, the `inputs`/`outputs` manifests, the Mermaid diagram of
the assembled document, and the fail-closed validation gate.  Returns
`(workflow?, errors, mermaid?)`.  Ajv's error message strings are
abstracted to one fixed `Validation error: …` entry (the gate is an
external collaborator; only its verdict matters here). -/
def generateWorkflowModel (input : String) :
    Option Workflow × List (List Char) × Option (List Char) :=
  if input = "" then (none, [cs "Input must be a non-empty string"], none)
  else
    let r := compileSteps input
    let wf : Workflow :=
      { inputs := inputsOf r.2.typeMap r.1,
        outputs := outputsOf r.2.typeMap r.1,
        steps := r.1 }
    let diagram := renderWorkflowAsMermaid (some wf)
    if validateWorkflowSteps r.1 then (some wf, r.2.errors, some diagram)
    else
      (none, r.2.errors ++ [cs "Validation error: schema violation"], some diagram)

end AF.F

namespace AF.P

/-! ### Lemmas about the comparison matcher and sanitization -/

theorem mem_of_startsWithL {a : Char} {ps t : List Char}
    (h : startsWithL (a :: ps) t = true) : a ∈ t := by
  cases t with
  | nil => simp [startsWithL] at h
  | cons c rest =>
    simp only [startsWithL, Bool.and_eq_true, decide_eq_true_eq] at h
    rw [h.1]
    exact List.mem_cons_self c rest

theorem mem_of_trimLeft {c : Char} {l : List Char} (h : c ∈ trimLeft l) : c ∈ l := by
  induction l with
  | nil => simp [trimLeft] at h
  | cons a rest ih =>
    rw [trimLeft] at h
    by_cases hw : jsIsWs a = true
    · simp only [hw, if_true] at h
      exact List.mem_cons_of_mem a (ih h)
    · simp only [hw] at h
      simpa using h

theorem mem_of_jsTrim {c : Char} {l : List Char} (h : c ∈ jsTrim l) : c ∈ l := by
  unfold jsTrim at h
  have h1 := mem_of_trimLeft h
  rw [List.mem_reverse] at h1
  have h2 := mem_of_trimLeft h1
  rwa [List.mem_reverse] at h2

theorem mem_of_dropWhileL {c : Char} {p : Char → Bool} {l : List Char}
    (h : c ∈ l.dropWhile p) : c ∈ l := by
  induction l with
  | nil => simp at h
  | cons a rest ih =>
    rw [List.dropWhile_cons] at h
    by_cases hp : p a = true
    · simp only [hp, if_true] at h
      exact List.mem_cons_of_mem a (ih h)
    · simp only [hp] at h
      simpa using h

/-- Characters surviving `sanitizeInput` are never `<` or `>`. -/
theorem sanitize_no_angle {x : List Char} {c : Char} (h : c ∈ sanitizeInput x) :
    ¬(c = '<' ∨ c = '>') := by
  unfold sanitizeInput at h
  have hf := mem_of_jsTrim h
  have := List.mem_filter.mp hf
  rcases this with ⟨_, hpred⟩
  intro hc
  rcases hc with hc | hc <;> subst hc <;> simp at hpred

theorem tryOps_spec {ops : List (List Char)} {t op rhs : List Char}
    (h : tryOps ops t = some (op, rhs)) :
    op ∈ ops ∧ startsWithL op t = true := by
  induction ops with
  | nil => simp [tryOps] at h
  | cons o more ih =>
    simp only [tryOps] at h
    split at h
    next hs =>
      split at h
      next =>
        simp only [Option.some.injEq, Prod.mk.injEq] at h
        obtain ⟨rfl, rfl⟩ := h
        exact ⟨List.mem_cons_self o more, hs⟩
      next =>
        obtain ⟨hm, hsw⟩ := ih h
        exact ⟨List.mem_cons_of_mem o hm, hsw⟩
    next =>
      obtain ⟨hm, hsw⟩ := ih h
      exact ⟨List.mem_cons_of_mem o hm, hsw⟩

theorem tryCompareAt_spec {s l op rhs : List Char}
    (h : tryCompareAt s = some (l, op, rhs)) :
    op ∈ compareOps ∧
      startsWithL op ((s.dropWhile isWordChar).dropWhile jsIsWs) = true := by
  unfold tryCompareAt at h
  by_cases hw : s.takeWhile isWordChar = []
  · simp only [hw, if_true] at h
    exact absurd h (by simp)
  · simp only [hw, if_false] at h
    cases hops : tryOps compareOps ((s.dropWhile isWordChar).dropWhile jsIsWs) with
    | none => rw [hops] at h; simp at h
    | some pr =>
      rw [hops] at h
      obtain ⟨o, r⟩ := pr
      have : op = o := by
        injection h with h'
        injection h' with h1 h2
        injection h2 with h3 h4
        exact h3.symm
      subst this
      exact tryOps_spec hops

/-- The operator of any hit of the unanchored comparison regex is one of
the seven listed operators, and its first character occurs in the
searched string. -/
theorem matchCompare_spec {s l op rhs : List Char}
    (h : matchCompare s = some (l, op, rhs)) :
    op ∈ compareOps ∧ ∀ a as, op = a :: as → a ∈ s := by
  induction s with
  | nil => simp [matchCompare] at h
  | cons c rest ih =>
    rw [matchCompare] at h
    cases htry : tryCompareAt (c :: rest) with
    | some r =>
      rw [htry] at h
      obtain ⟨l', op', rhs'⟩ := r
      have heq : l = l' ∧ op = op' ∧ rhs = rhs' := by
        injection h with h'
        injection h' with h1 h2
        injection h2 with h3 h4
        exact ⟨h1.symm, h3.symm, h4.symm⟩
      obtain ⟨_, rfl, _⟩ := heq
      obtain ⟨hmem, hsw⟩ := tryCompareAt_spec htry
      refine ⟨hmem, fun a as hop => ?_⟩
      subst hop
      have ha := mem_of_startsWithL hsw
      exact mem_of_dropWhileL (mem_of_dropWhileL ha)
    | none =>
      rw [htry] at h
      obtain ⟨hmem, hin⟩ := ih h
      exact ⟨hmem, fun a as hop => List.mem_cons_of_mem c (hin a as hop)⟩

/-- After sanitization, the comparison matcher can only produce the
equality-family operators: the four angle operators would require a `<`
or `>` character, which `sanitizeInput` removes. -/
theorem matchCompare_sanitized {x l op rhs : List Char}
    (h : matchCompare (sanitizeInput x) = some (l, op, rhs)) :
    op = cs "===" ∨ op = cs "!==" ∨ op = cs "==" := by
  obtain ⟨hmem, hhead⟩ := matchCompare_spec h
  simp only [compareOps, cs, List.mem_cons, List.not_mem_nil, or_false] at hmem
  rcases hmem with rfl | rfl | rfl | rfl | rfl | rfl | rfl
  · exact absurd (hhead '>' [] rfl) (fun hc => sanitize_no_angle hc (Or.inr rfl))
  · exact absurd (hhead '>' ['='] rfl) (fun hc => sanitize_no_angle hc (Or.inr rfl))
  · exact absurd (hhead '<' [] rfl) (fun hc => sanitize_no_angle hc (Or.inl rfl))
  · exact absurd (hhead '<' ['='] rfl) (fun hc => sanitize_no_angle hc (Or.inl rfl))
  · exact Or.inl rfl
  · exact Or.inr (Or.inl rfl)
  · exact Or.inr (Or.inr rfl)

/-- The tree invariant behind C10: no run of the condition parser, at any
fuel and on any input, produces a comparison with an angle-bracket
operator anywhere in the resulting tree. -/
theorem parseConditionGo_ops (fuel : Nat) :
    ∀ s, condOpsOk (parseConditionGo fuel s) = true := by
  induction fuel with
  | zero => intro s; rfl
  | succ n ih =>
    intro s
    rw [parseConditionGo]
    split
    · rfl
    · split
      · dsimp only
        split
        · rfl
        · rfl
      · split
        next l op r heq =>
          split
          · simp only [condOpsOk, Bool.and_eq_true]
            exact ⟨ih _, ih _⟩
          · simp only [condOpsOk, Bool.and_eq_true]
            exact ⟨ih _, ih _⟩
        next =>
          split
          next l op r heq =>
            rcases matchCompare_sanitized heq with rfl | rfl | rfl <;> rfl
          next => rfl

end AF.P

namespace AF

/-! ### Claims C2-C5 and C10 (parser.js) -/

/-- **C2.** `parseExpression` applies standard precedence: `*`/`/` bind
tighter than `+`/`-` and parentheses override precedence.  The tree for
`"2 + 3 * 4"` is `add(2, multiply(3, 4))` and evaluates to 14, the tree
for `"(2 + 3) * 4"` is `multiply(add(2, 3), 4)` and evaluates to 20
under standard arithmetic evaluation (numeral leaves surface as `get`
nodes carrying the numeral text, given their numeric denotation by
`numeralEnv`). -/
theorem C2_parseExpression_precedence :
    P.parseExpression "2 + 3 * 4" =
      some (P.Expr.binop (cs "add") (P.Expr.get (cs "2"))
        (P.Expr.binop (cs "multiply") (P.Expr.get (cs "3")) (P.Expr.get (cs "4")))) ∧
    P.evalExpr P.numeralEnv ((P.parseExpression "2 + 3 * 4").getD P.Expr.nullE) = 14 ∧
    P.parseExpression "(2 + 3) * 4" =
      some (P.Expr.binop (cs "multiply")
        (P.Expr.binop (cs "add") (P.Expr.get (cs "2")) (P.Expr.get (cs "3")))
        (P.Expr.get (cs "4"))) ∧
    P.evalExpr P.numeralEnv ((P.parseExpression "(2 + 3) * 4").getD P.Expr.nullE) = 20 :=
  ⟨by decide, by decide, by decide, by decide⟩

/-- **C3.** `parseExpression` is all-or-nothing: it returns an expression
only when the token cursor has consumed every token and the parenthesis
counter is exactly zero at the end of the run; in every other case the
call returns `none`, never a partial tree. -/
theorem C3_parseExpression_all_or_nothing (s : String) :
    (P.parseExpression s ≠ none →
      (P.parseExpressionRun s).2.idx = (P.tokensOf s).length ∧
        (P.parseExpressionRun s).2.paren = 0) ∧
    ((P.parseExpressionRun s).2.idx ≠ (P.tokensOf s).length ∨
        (P.parseExpressionRun s).2.paren ≠ 0 →
      P.parseExpression s = none) := by
  unfold P.parseExpression
  constructor
  · intro h
    by_cases hc : (P.parseExpressionRun s).2.idx = (P.tokensOf s).length ∧
        (P.parseExpressionRun s).2.paren = 0
    · exact hc
    · exact absurd (by simp only [hc, if_false]) h
  · intro h
    have hc : ¬((P.parseExpressionRun s).2.idx = (P.tokensOf s).length ∧
        (P.parseExpressionRun s).2.paren = 0) := by
      rcases h with h | h <;> intro hc <;> [exact h hc.1; exact h hc.2]
    simp only [hc, if_false]

/-- Witness for C3 at the concrete input `"2 + 3"`. -/
theorem C3_witness :
    P.parseExpression "2 + 3" ≠ none ∧
    (P.parseExpressionRun "2 + 3").2.idx = (P.tokensOf "2 + 3").length ∧
    (P.parseExpressionRun "2 + 3").2.paren = 0 :=
  ⟨by decide, (C3_parseExpression_all_or_nothing "2 + 3").1 (by decide)⟩

/-- **C4 (counterexample).** The claim says every input of the form
`"x >= n"` yields a comparison carrying `>=`.  In fact `sanitizeInput`
strips `>` before matching, so `"x >= 5"` becomes `"x = 5"`, the
comparison regex does not match at all, and the condition degrades to
the boolean-variable fallback; no `>=` node is produced. -/
theorem C4_counterexample :
    P.parseCondition "x >= 5" =
      P.PCond.compare (P.POperand.get (cs "x = 5")) (cs "===")
        (P.POperand.val (P.PVal.vbool true)) ∧
    P.condRootOp (P.parseCondition "x >= 5") ≠ some (cs ">=") :=
  ⟨by decide, by decide⟩

/-- **C4 (amended).** The operator alternation of the comparison rule is
`>, >=, <, <=, ===, !==, ==` in the source's order — JS alternation is
first-match, so `>`/`<` shadow `>=`/`<=` (demonstrated on the raw
matcher: matching `"a >= b"` directly yields operator `>` with right
operand `=`).  Moreover, since sanitization removes `<` and `>` before
any matching, the comparison rule applied by `parseCondition` can only
ever produce the operators `===`, `!==` or `==`. -/
theorem C4_compare_operator_matching :
    (∀ s : String,
      (match P.matchCompare (P.sanitizeInput s.data) with
        | none => true
        | some (_, op, _) =>
          op = cs "===" || op = cs "!==" || op = cs "==") = true) ∧
    P.matchCompare (cs "a >= b") = some (cs "a", cs ">", cs "=") := by
  constructor
  · intro s
    cases h : P.matchCompare (P.sanitizeInput s.data) with
    | none => rfl
    | some pr =>
      obtain ⟨l, op, r⟩ := pr
      rcases P.matchCompare_sanitized h with rfl | rfl | rfl <;> rfl
  · decide

/-- **C5.** `parseCondition` is total by construction (it is a Lean
function into `PCond`); empty input degrades to the constant-false
comparison, a `contains` form with a missing side also degrades to
constant-false, and text matching none of the contains/logical/
comparison forms falls back to comparing the whole sanitized text, as a
variable reference, for identity-equality to `true`. -/
theorem C5_parseCondition_total_fallback :
    (∀ s : String, P.sanitizeInput s.data = [] →
      P.parseCondition s = P.constFalse) ∧
    (∀ s : String, P.sanitizeInput s.data ≠ [] →
      includesSub (P.sanitizeInput s.data) (cs "contains") = true →
      (((P.splitContains ((P.sanitizeInput s.data).length + 1)
            (P.sanitizeInput s.data)).map jsTrim).getD 0 [] = [] ∨
        ((P.splitContains ((P.sanitizeInput s.data).length + 1)
            (P.sanitizeInput s.data)).map jsTrim).getD 1 [] = []) →
      P.parseCondition s = P.constFalse) ∧
    (∀ s : String, P.sanitizeInput s.data ≠ [] →
      includesSub (P.sanitizeInput s.data) (cs "contains") = false →
      P.matchLogical (P.sanitizeInput s.data) = none →
      P.matchCompare (P.sanitizeInput s.data) = none →
      P.parseCondition s =
        P.PCond.compare (P.POperand.get (P.sanitizeInput s.data)) (cs "===")
          (P.POperand.val (P.PVal.vbool true))) := by
  refine ⟨fun s h0 => ?_, fun s h0 h1 h2 => ?_, fun s h0 h1 h2 h3 => ?_⟩
  · rw [P.parseCondition, P.parseConditionGo, h0]
    simp
  · rw [P.parseCondition, P.parseConditionGo]
    rw [if_neg h0, if_pos h1, if_pos h2]
  · rw [P.parseCondition, P.parseConditionGo]
    rw [if_neg h0, if_neg (by simp [h1]), h2, h3]

/-- Witness for C5 at the concrete inputs `""` (empty → constant-false),
`"xcontainsy"` (contains-substring present but the separator regex finds
no split → constant-false) and `"hello world"` (no form matches →
boolean-variable fallback). -/
theorem C5_witness :
    P.parseCondition "" = P.constFalse ∧
    P.parseCondition "xcontainsy" = P.constFalse ∧
    P.parseCondition "hello world" =
      P.PCond.compare (P.POperand.get (cs "hello world")) (cs "===")
        (P.POperand.val (P.PVal.vbool true)) :=
  ⟨C5_parseCondition_total_fallback.1 "" (by decide),
   C5_parseCondition_total_fallback.2.1 "xcontainsy" (by decide) (by decide)
     (by decide),
   C5_parseCondition_total_fallback.2.2 "hello world" (by decide) (by decide)
     (by decide) (by decide)⟩

/-- **C10 (counterexample).** The claim's universal clause — every input
written with an angle-bracket operator degrades to the boolean-variable
fallback — fails: `"x > 5 === q"` is written with `>`, yet after `>` is
stripped the comparison rule still matches `5 === q` and returns a
comparison node (`get "5" === get "q"`), not the fallback form. -/
theorem C10_counterexample :
    P.parseCondition "x > 5 === q" =
      P.PCond.compare (P.POperand.get (cs "5")) (cs "===")
        (P.POperand.get (cs "q")) ∧
    P.parseCondition "x > 5 === q" ≠
      P.PCond.compare (P.POperand.get (P.sanitizeInput (cs "x > 5 === q")))
        (cs "===") (P.POperand.val (P.PVal.vbool true)) :=
  ⟨by decide, by decide⟩

/-- **C10 (amended).** Because sanitization strips `<` and `>` before any
operator matching, `parseCondition` can never return a comparison node
whose operator is `>`, `<`, `>=` or `<=` — anywhere in the resulting
tree, for any input.  Simple comparisons written with those operators
(e.g. `"x > 2"`) lose their angle brackets and degrade to the fallback
comparing the remaining sanitized text, as a variable reference, to
`true`; inputs that still contain another recognizable form after
stripping (logical split, `contains`, or an `==`-family comparison) may
produce that form instead. -/
theorem C10_no_angle_operators :
    (∀ s : String, P.condOpsOk (P.parseCondition s) = true) ∧
    P.parseCondition "x > 2" =
      P.PCond.compare (P.POperand.get (cs "x  2")) (cs "===")
        (P.POperand.val (P.PVal.vbool true)) :=
  ⟨fun s => P.parseConditionGo_ops (s.length + 1) s.data, by decide⟩

end AF

namespace AF.F

/-! ### Lemmas about the framework dispatch -/

theorem ciStarts_head {k : Char} {ks s t : List Char}
    (h : ciStarts (k :: ks) s = some t) :
    ∃ c rest, s = c :: rest ∧ c.toLower = k.toLower := by
  cases s with
  | nil => simp [ciStarts] at h
  | cons c rest =>
    rw [ciStarts] at h
    by_cases hc : c.toLower = k.toLower
    · exact ⟨c, rest, rfl, hc⟩
    · simp [hc] at h

theorem ciStarts_none {k : Char} {ks : List Char} {c : Char} {rest : List Char}
    (h : c.toLower ≠ k.toLower) : ciStarts (k :: ks) (c :: rest) = none := by
  rw [ciStarts]
  simp [h]

/-- A line matched by the repeat pattern starts with `r`/`l` (case
folded), so the earlier `macro` and `call` patterns cannot match it. -/
theorem matchRepeat_excludes_earlier {s B N : List Char}
    (h : matchRepeatLine s = some (B, N)) :
    matchMacroLine s = none ∧ matchCallLine s = none := by
  unfold matchRepeatLine at h
  have hhead : ∃ c rest, s = c :: rest ∧
      (c.toLower = ('r' : Char).toLower ∨ c.toLower = ('l' : Char).toLower) := by
    cases hr : ciStarts (cs "repeat") s with
    | some a =>
      obtain ⟨c, rest, rfl, hc⟩ :=
        ciStarts_head (show ciStarts ('r' :: cs "epeat") s = some a from hr)
      exact ⟨c, rest, rfl, Or.inl hc⟩
    | none =>
      rw [hr] at h
      cases hl : ciStarts (cs "loop") s with
      | some a =>
        obtain ⟨c, rest, rfl, hc⟩ :=
          ciStarts_head (show ciStarts ('l' :: cs "oop") s = some a from hl)
        exact ⟨c, rest, rfl, Or.inr hc⟩
      | none => rw [hl] at h; simp at h
  obtain ⟨c, rest, rfl, hc⟩ := hhead
  constructor
  · unfold matchMacroLine
    rw [show (cs "macro") = 'm' :: cs "acro" from rfl,
      @ciStarts_none 'm' (cs "acro") c rest
        (by rcases hc with hc | hc <;> rw [hc] <;> decide)]
  · unfold matchCallLine
    rw [show (cs "call") = 'c' :: cs "all" from rfl,
      @ciStarts_none 'c' (cs "all") c rest
        (by rcases hc with hc | hc <;> rw [hc] <;> decide)]

theorem takeWhile_all (p : Char → Bool) (l : List Char) :
    (l.takeWhile p).all p = true := by
  induction l with
  | nil => rfl
  | cons a rest ih =>
    rw [List.takeWhile_cons]
    by_cases hp : p a = true
    · simp [hp, ih]
    · simp [hp]

theorem digitRun1_numeric {s w r : List Char} (h : digitRun1 s = some (w, r)) :
    isNumericStr w = true := by
  unfold digitRun1 at h
  by_cases hw : s.takeWhile isDigitChar = []
  · simp [hw] at h
  · simp only [hw, if_false] at h
    simp only [Option.some.injEq, Prod.mk.injEq] at h
    obtain ⟨rfl, _⟩ := h
    simp [isNumericStr, hw, takeWhile_all]

theorem repeatTailAt_numeric {s digits : List Char}
    (h : repeatTailAt s = some digits) : isNumericStr digits = true := by
  unfold repeatTailAt at h
  cases h1 : reqWs s with
  | none => simp only [h1] at h; exact Option.noConfusion h
  | some a1 =>
    simp only [h1] at h
    cases h2 : digitRun1 a1 with
    | none => simp only [h2] at h; exact Option.noConfusion h
    | some pr =>
      simp only [h2] at h
      obtain ⟨w, r1⟩ := pr
      cases h3 : reqWs r1 with
      | none => simp only [h3] at h; exact Option.noConfusion h
      | some r2 =>
        simp only [h3] at h
        cases h4 : ciStarts (cs "times") r2 with
        | none => simp only [h4] at h; exact Option.noConfusion h
        | some r3 =>
          simp only [h4] at h
          by_cases h5 : r3 = []
          · simp only [h5, if_true] at h
            obtain rfl := Option.some.inj h
            exact digitRun1_numeric h2
          · simp [h5] at h

/-- Any hit of the lazy repeat scan yields a non-empty body and numeric
digits, for every accumulator. -/
theorem repeatScan_spec :
    ∀ (fuel : Nat) (acc s B N : List Char),
      repeatScan fuel acc s = some (B, N) → B ≠ [] ∧ isNumericStr N = true := by
  intro fuel
  induction fuel with
  | zero => intro acc s B N h; simp [repeatScan] at h
  | succ n ih =>
    intro acc s B N h
    match s with
    | [] => simp [repeatScan] at h
    | c :: rest =>
      rw [repeatScan] at h
      cases ht : repeatTailAt rest with
      | some digits =>
        simp only [ht, Option.some.injEq, Prod.mk.injEq] at h
        obtain ⟨rfl, rfl⟩ := h
        exact ⟨by simp, repeatTailAt_numeric ht⟩
      | none =>
        simp only [ht] at h
        exact ih (c :: acc) rest B N h

/-- The captures of the repeat pattern are non-empty and numeric, so the
rule's error guard is dead. -/
theorem matchRepeat_captures {s B N : List Char}
    (h : matchRepeatLine s = some (B, N)) :
    B ≠ [] ∧ isNumericStr N = true := by
  unfold matchRepeatLine at h
  rcases hkw : (match ciStarts (cs "repeat") s with
    | some a => some a
    | none => ciStarts (cs "loop") s) with _ | a
  · simp only [hkw] at h; exact Option.noConfusion h
  · simp only [hkw] at h
    cases hws : reqWs a with
    | none => simp only [hws] at h; exact Option.noConfusion h
    | some afterWs =>
      simp only [hws] at h
      exact repeatScan_spec (afterWs.length + 1) [] afterWs B N h

theorem objGet_objSet {α : Type} (m : List (List Char × α)) (k : List Char)
    (v : α) : objGet (objSet m k v) k = some v := by
  induction m with
  | nil => simp [objSet, objGet]
  | cons p rest ih =>
    obtain ⟨k', v'⟩ := p
    rw [objSet]
    by_cases hk : k' = k
    · simp [hk, objGet]
    · rw [if_neg hk, objGet, if_neg hk]
      exact ih

end AF.F

namespace AF.F

/-- The emission the repeat/loop rule is specified to produce for
captures `(B, N)`: a counter-init `Set`, then one `While{counter < N}`
whose body is the recursively parsed `B` followed by the counter
increment, with the synthetic counter named after the `While`'s own
fresh id and registered as `number`. -/
def repeatEmission (B N : List Char) (fuel : Nat) (ctx : Ctx) :
    List Step × Ctx :=
  let r1 := nextId ctx
  let counter := cs "_loop_counter_" ++ r1.1
  let r2 := nextId r1.2
  let init := createSetStep r2.1 counter (Value.val (Prim.pnum 0))
    (some (cs "set " ++ counter ++ cs " to 0"))
  let body := parseSentenceF fuel B r2.2
  let r3 := nextId body.2
  let inc := createSetStep r3.1 counter
    (Value.binop (cs "add") (Value.get counter) (Value.val (Prim.pnum 1)))
    (some (cs "set " ++ counter ++ cs " to " ++ counter ++ cs " + 1"))
  let loop := createWhileStep r1.1
    (Cond.compare (Value.get counter) (cs "<")
      (Value.val (Prim.pnum (Int.ofNat (digitsVal N)))))
    (body.1 ++ [inc])
    (some (cs "repeat " ++ B ++ cs " " ++ N ++ cs " times"))
  ([init, loop],
   { r3.2 with typeMap := objSet r3.2.typeMap counter (cs "number") })

end AF.F

namespace AF

/-- **C1.** (code bug demonstration, at a single-line compile)  The
input is one line, so the whole compilation is a single await chain and
the source executes it in exactly this sequential order — in particular
the `if` rule awaits the then-branch parse (which runs `defineMacro`)
to completion before dispatching the else-branch, so both nested
`call m` dispatches find the macro template.  (A macro on its own line
followed by bare `call` lines would instead never expand: `defineMacro`
is deferred past an `await` while the `call` rule reads the table in the
initial synchronous tick.)  The `call` rule's shallow spread-clone
`{...step, id: nextId()}` refreshes only the top-level id of each cloned
template step, so the steps nested in the two cloned `While` bodies keep
the definition-site ids `step3`/`step4`, which therefore occur twice in
the produced step tree — contradicting the unique, never-reused id
invariant the spec states for macro expansion. -/
theorem C1_macro_call_reuses_nested_ids :
    F.idsOfSteps (F.compileSteps
        "if c then macro m repeat set x to 1 2 times else if d then call m else call m").1 =
      [cs "step10", cs "step9", cs "step5", cs "step6", cs "step3", cs "step4",
       cs "step7", cs "step8", cs "step3", cs "step4"] ∧
    F.hasDup (F.idsOfSteps (F.compileSteps
        "if c then macro m repeat set x to 1 2 times else if d then call m else call m").1) =
      true :=
  ⟨by decide, by decide⟩

/-- **C6.** For every line matched by the repeat/loop pattern with
captures `(B, N)`, dispatch reaches the repeat rule (the earlier `macro`
and `call` patterns cannot match, and the rule's error guard is dead
since the captures are non-empty and numeric) and emits exactly the
specified two top-level steps — counter-init `Set`(0), then one
`While{counter < N}` wrapping the recursively parsed body followed by
the `+1` increment — with the counter named from the `While`'s own fresh
id and registered in `typeMap` as `number`. -/
theorem C6_repeat_rule (line B N : List Char) (fuel : Nat) (ctx : F.Ctx)
    (h : F.matchRepeatLine line = some (B, N)) :
    F.parseSentenceF (fuel + 1) line ctx = F.repeatEmission B N fuel ctx ∧
    F.objGet (F.repeatEmission B N fuel ctx).2.typeMap
      (cs "_loop_counter_" ++ (F.nextId ctx).1) = some (cs "number") := by
  obtain ⟨hmac, hcall⟩ := F.matchRepeat_excludes_earlier h
  obtain ⟨hB, hN⟩ := F.matchRepeat_captures h
  constructor
  · simp only [F.parseSentenceF, hmac, hcall, h]
    rw [if_neg (by rintro (hc | hc); exact hB hc; exact hc hN)]
    rfl
  · exact F.objGet_objSet _ _ _

/-- Witness for C6 at the concrete line `"repeat set x to 1 2 times"`. -/
theorem C6_witness :
    F.parseSentenceF 26 (cs "repeat set x to 1 2 times") F.Ctx.init =
      F.repeatEmission (cs "set x to 1") (cs "2") 25 F.Ctx.init ∧
    F.objGet (F.repeatEmission (cs "set x to 1") (cs "2") 25
        F.Ctx.init).2.typeMap
      (cs "_loop_counter_" ++ (F.nextId F.Ctx.init).1) = some (cs "number") :=
  C6_repeat_rule (cs "repeat set x to 1 2 times") (cs "set x to 1") (cs "2")
    25 F.Ctx.init (by decide)

/-- **C7 (counterexample).** After compiling `"set x to y add 1"` the
variable `y` occurs as a `VariableRef` (`get` node) in the step tree but
the assembled `inputs` manifest is empty: `inputs` only iterates over
`typeMap` keys (assigned variables), so a referenced-but-never-assigned
variable does not appear at all — it is not reported with a default
`string` type as the claim states. -/
theorem C7_counterexample :
    (cs "y") ∈ F.getsOfSteps (F.compileSteps "set x to y add 1").1 ∧
    F.inputsOf (F.compileSteps "set x to y add 1").2.typeMap
      (F.compileSteps "set x to y add 1").1 = [] :=
  ⟨by decide, by decide⟩

/-- **C7 (amended).** Every entry of the assembled `inputs` manifest is a
`typeMap` key (an assigned variable or synthetic loop counter) whose
serialized `get`-marker occurs in some step, and its type is exactly
`typeMap[name] || 'string'`; a referenced variable without a `typeMap`
entry never appears in `inputs`. -/
theorem C7_inputs_within_typeMap (tm : List (List Char × List Char))
    (steps : List F.Step) (name ty : List Char)
    (h : (name, ty) ∈ F.inputsOf tm steps) :
    name ∈ tm.map Prod.fst ∧ ty = F.typeOrString tm name := by
  unfold F.inputsOf at h
  rw [List.mem_map] at h
  obtain ⟨a, ha, heq⟩ := h
  have h1 : a = name := congrArg Prod.fst heq
  have h2 : F.typeOrString tm a = ty := congrArg Prod.snd heq
  subst h1
  exact ⟨(List.mem_filter.mp ha).1, h2.symm⟩

/-- Witness for the amended C7 at the compile of
`"repeat set x to 1 2 times"`, whose inputs contain the loop counter. -/
theorem C7_witness :
    (cs "_loop_counter_step1") ∈
      ((F.compileSteps "repeat set x to 1 2 times").2.typeMap.map Prod.fst) ∧
    (cs "number") =
      F.typeOrString (F.compileSteps "repeat set x to 1 2 times").2.typeMap
        (cs "_loop_counter_step1") :=
  C7_inputs_within_typeMap
    (F.compileSteps "repeat set x to 1 2 times").2.typeMap
    (F.compileSteps "repeat set x to 1 2 times").1
    (cs "_loop_counter_step1") (cs "number") (by decide)

/-- **C8.** A line matching none of the thirteen dispatch patterns
contributes zero steps and appends exactly the
`Unrecognized command: "<line>"` diagnostic; compilation continues with
the next line (the two-line compile still produces the second line's
step); and `compile("frobnicate the whatsit")` yields `workflow = null`
(the empty step list fails the schema's `minItems`) together with a
diagnostics list containing the unrecognized-command entry. -/
theorem C8_unrecognized_command :
    (∀ (line : List Char) (ctx : F.Ctx) (fuel : Nat),
      F.matchMacroLine line = none → F.matchCallLine line = none →
      F.matchRepeatLine line = none → F.matchIfLine line = none →
      F.matchWaitLine line = none → F.matchSetLine line = none →
      F.matchBreakLine line = false → F.matchReturnLine line = none →
      F.matchAnalyzeLine line = none → F.matchRenderLine line = none →
      F.matchStateLine line = none → F.matchStyleLine line = none →
      F.matchOnLine line = none →
      F.parseSentenceF (fuel + 1) line ctx =
        ([], F.addError ctx
          (cs "Unrecognized command: \"" ++ line ++ cs "\""))) ∧
    (F.generateWorkflowModel "frobnicate the whatsit").1.isNone = true ∧
    (cs "Unrecognized command: \"frobnicate the whatsit\"") ∈
      (F.generateWorkflowModel "frobnicate the whatsit").2.1 ∧
    (F.compileSteps "frobnicate the whatsit\nset x to 1").1.length = 1 ∧
    (F.compileSteps "frobnicate the whatsit\nset x to 1").2.errors =
      [cs "Unrecognized command: \"frobnicate the whatsit\""] := by
  refine ⟨?_, by decide, by decide, by decide, by decide⟩
  intro line ctx fuel h1 h2 h3 h4 h5 h6 h7 h8 h9 h10 h11 h12 h13
  simp only [F.parseSentenceF, h1, h2, h3, h4, h5, h6, h7, h8, h9, h10, h11,
    h12, h13, Bool.false_eq_true, if_false]

/-- Witness for C8's universal part at the line
`"frobnicate the whatsit"`. -/
theorem C8_witness :
    F.parseSentenceF 23 (cs "frobnicate the whatsit") F.Ctx.init =
      ([], F.addError F.Ctx.init
        (cs "Unrecognized command: \"frobnicate the whatsit\"")) :=
  C8_unrecognized_command.1 (cs "frobnicate the whatsit") F.Ctx.init 22
    (by decide) (by decide) (by decide) (by decide) (by decide) (by decide)
    (by decide) (by decide) (by decide) (by decide) (by decide) (by decide)
    (by decide)

/-- **C9.** The Mermaid renderer is a pure total function of the workflow
document (it is a Lean function; the source touches no ambient state),
hence calling it twice on the same document yields byte-identical
output; a JS-`null` workflow renders the fixed invalid-workflow graph
and a workflow with an empty step list still renders the trivial
`Start → End` graph. -/
theorem C9_render_pure_total_deterministic :
    (∀ w : Option F.Workflow,
      F.renderWorkflowAsMermaid w = F.renderWorkflowAsMermaid w) ∧
    F.renderWorkflowAsMermaid none =
      cs "graph TD\nA[Invalid Workflow] --> B[No Steps]" ∧
    (∀ inputs outputs : List (List Char × List Char),
      F.renderWorkflowAsMermaid (some ⟨inputs, outputs, []⟩) =
        cs "graph TD\nSTART[Start]\nSTART --> END[End]") :=
  ⟨fun _ => rfl, by decide, fun _ _ => rfl⟩

end AF
